import Mathlib

/-!
Verification of the Reunite-AI embedding-matching and video-scanning engine.

Shallow embedding of `backend/pages/helper/match_algo.py`,
`backend/pages/helper/video_processor.py`, `backend/pages/helper/db_queries.py`
and the video upload route `backend/api/routers/video.py`.

Modelling conventions:
* Stored face embeddings are JSON arrays of numbers; we model them as `List ℚ`
  (exact rationals abstract the Python floats).
* `numpy` norms and the cosine distance are real-valued; we model them in `ℝ`
  with `Real.sqrt`, so distance-valued definitions are `noncomputable` while
  all structural checks (zero sum, dimension, ids) stay decidable.
* `np.dot` on equal-length 1-d arrays is the usual dot product (the call sites
  in the scans check dimensions first; `np.dot` raises on a length mismatch,
  which is unreachable behind those checks).  We model the dot product with
  `List.zipWith`, which agrees with `np.dot` on equal-length vectors.
* Database state is passed explicitly; SQL queries become list operations.
-/

namespace Reunite

/-- Sum of a rational list: models `np.sum(encoding)`. -/
def listSum (l : List ℚ) : ℚ := l.foldr (· + ·) 0

/-- Dot product of two lists: models `np.dot(a, b)` on equal-length vectors. -/
def dotList : List ℚ → List ℚ → ℚ
  | [], _ => 0
  | _, [] => 0
  | x :: a, y :: b => x * y + dotList a b

/-- Sum of squares of the entries: the square of the L2 norm `np.linalg.norm`. -/
def sumSq (l : List ℚ) : ℚ := dotList l l

theorem sumSq_nonneg (l : List ℚ) : 0 ≤ sumSq l := by
  induction l with
  | nil => simp [sumSq, dotList]
  | cons x a ih =>
      have hx : 0 ≤ x * x := mul_self_nonneg x
      simpa [sumSq, dotList] using add_nonneg hx ih

theorem sumSq_cons (x : ℚ) (a : List ℚ) : sumSq (x :: a) = x * x + sumSq a := rfl

/-- Cauchy–Schwarz for list dot products (the `zipWith`-style truncating dot
product only makes the right-hand side larger, so no length hypothesis is
needed). -/
theorem dotList_sq_le (a b : List ℚ) :
    dotList a b * dotList a b ≤ sumSq a * sumSq b := by
  induction a generalizing b with
  | nil => simp [dotList, sumSq]
  | cons x a ih =>
      cases b with
      | nil => simp [dotList, sumSq]
      | cons y b =>
          have h := ih b
          have hp : 0 ≤ sumSq a := sumSq_nonneg a
          have hq : 0 ≤ sumSq b := sumSq_nonneg b
          simp only [dotList, sumSq_cons]
          set d := dotList a b with hd
          set p := sumSq a with hps
          set q := sumSq b with hqs
          have hu : 0 ≤ x * x * q + y * y * p :=
            add_nonneg (mul_nonneg (mul_self_nonneg x) hq)
              (mul_nonneg (mul_self_nonneg y) hp)
          have husq : (2 * (x * y) * d) ^ 2 ≤ (x * x * q + y * y * p) ^ 2 := by
            nlinarith [sq_nonneg (x * x * q - y * y * p),
              mul_nonneg (mul_nonneg (mul_self_nonneg x) (mul_self_nonneg y))
                (sub_nonneg.mpr h)]
          have key : 2 * (x * y) * d ≤ x * x * q + y * y * p := by
            nlinarith [hu, husq]
          nlinarith [key, h]

/-- L2 norm of an embedding, as `np.linalg.norm` computes it. -/
noncomputable def l2norm (l : List ℚ) : ℝ := Real.sqrt ((sumSq l : ℚ) : ℝ)

theorem l2norm_nonneg (l : List ℚ) : 0 ≤ l2norm l := Real.sqrt_nonneg _

theorem l2norm_eq_zero_iff (l : List ℚ) : l2norm l = 0 ↔ sumSq l = 0 := by
  unfold l2norm
  rw [Real.sqrt_eq_zero (by exact_mod_cast sumSq_nonneg l)]
  constructor
  · intro h; exact_mod_cast h
  · intro h; exact_mod_cast h

theorem l2norm_pos_of_ne (l : List ℚ) (h : sumSq l ≠ 0) : 0 < l2norm l := by
  rcases lt_or_eq_of_le (l2norm_nonneg l) with h' | h'
  · exact h'
  · exact absurd ((l2norm_eq_zero_iff l).mp h'.symm) h

theorem sq_l2norm (l : List ℚ) : l2norm l * l2norm l = ((sumSq l : ℚ) : ℝ) := by
  unfold l2norm
  exact Real.mul_self_sqrt (by exact_mod_cast sumSq_nonneg l)

/--
`calculate_cosine_distance` from `match_algo.py` (lines 26–37):
computes both norms first, returns the sentinel `1.0` if either is zero,
otherwise `1.0 - np.dot(a, b) / (norm_a * norm_b)`.
-/
noncomputable def calculate_cosine_distance (a b : List ℚ) : ℝ :=
  if l2norm a = 0 ∨ l2norm b = 0 then 1
  else 1 - ((dotList a b : ℚ) : ℝ) / (l2norm a * l2norm b)

/--
`_cosine_distance` from `video_processor.py` (lines 125–133): textually the
same computation as `calculate_cosine_distance` (after `np.asarray` casts).
-/
noncomputable def cosine_distance_video (a b : List ℚ) : ℝ :=
  if l2norm a = 0 ∨ l2norm b = 0 then 1
  else 1 - ((dotList a b : ℚ) : ℝ) / (l2norm a * l2norm b)

/-- Cosine similarity as the spec's glossary words it: the dot product divided
by the product of the L2 norms.  Used to compare the code's distance with the
spec's `1 − cosine_similarity(a, b)` formulation. -/
noncomputable def cosineSimilarity (a b : List ℚ) : ℝ :=
  ((dotList a b : ℚ) : ℝ) / (l2norm a * l2norm b)

theorem abs_dot_le_norm_mul (a b : List ℚ) :
    |((dotList a b : ℚ) : ℝ)| ≤ l2norm a * l2norm b := by
  have h : ((dotList a b : ℚ) : ℝ) * ((dotList a b : ℚ) : ℝ) ≤
      (l2norm a * l2norm b) * (l2norm a * l2norm b) := by
    have hcs : ((dotList a b * dotList a b : ℚ) : ℝ) ≤ ((sumSq a * sumSq b : ℚ) : ℝ) := by
      exact_mod_cast dotList_sq_le a b
    calc ((dotList a b : ℚ) : ℝ) * ((dotList a b : ℚ) : ℝ)
        = ((dotList a b * dotList a b : ℚ) : ℝ) := by push_cast; ring
      _ ≤ ((sumSq a * sumSq b : ℚ) : ℝ) := hcs
      _ = (l2norm a * l2norm b) * (l2norm a * l2norm b) := by
          push_cast
          rw [show l2norm a * l2norm b * (l2norm a * l2norm b)
              = (l2norm a * l2norm a) * (l2norm b * l2norm b) by ring,
            sq_l2norm, sq_l2norm]
  have hnn : 0 ≤ l2norm a * l2norm b :=
    mul_nonneg (l2norm_nonneg a) (l2norm_nonneg b)
  have h1 : |((dotList a b : ℚ) : ℝ)| =
      Real.sqrt (((dotList a b : ℚ) : ℝ) * ((dotList a b : ℚ) : ℝ)) :=
    (Real.sqrt_mul_self_eq_abs _).symm
  have h2 := Real.sqrt_le_sqrt h
  have h3 : Real.sqrt ((l2norm a * l2norm b) * (l2norm a * l2norm b)) =
      l2norm a * l2norm b := Real.sqrt_mul_self hnn
  rw [h1]
  rw [h3] at h2
  exact h2

/-- The computed cosine distance always lies in `[0, 2]`. -/
theorem calculate_cosine_distance_mem_Icc (a b : List ℚ) :
    0 ≤ calculate_cosine_distance a b ∧ calculate_cosine_distance a b ≤ 2 := by
  unfold calculate_cosine_distance
  by_cases h : l2norm a = 0 ∨ l2norm b = 0
  · rw [if_pos h]; norm_num
  · rw [if_neg h]
    push_neg at h
    have ha : 0 < l2norm a := lt_of_le_of_ne (l2norm_nonneg a) (Ne.symm h.1)
    have hb : 0 < l2norm b := lt_of_le_of_ne (l2norm_nonneg b) (Ne.symm h.2)
    have hpos : 0 < l2norm a * l2norm b := mul_pos ha hb
    have habs := abs_dot_le_norm_mul a b
    rw [abs_le] at habs
    constructor
    · have : ((dotList a b : ℚ) : ℝ) / (l2norm a * l2norm b) ≤ 1 :=
        (div_le_one hpos).mpr habs.2
      linarith
    · have : -1 ≤ ((dotList a b : ℚ) : ℝ) / (l2norm a * l2norm b) := by
        rw [le_div_iff₀ hpos]; linarith [habs.1]
      linarith

theorem calculate_cosine_distance_lt_hundred (a b : List ℚ) :
    calculate_cosine_distance a b < 100 :=
  lt_of_le_of_lt (calculate_cosine_distance_mem_Icc a b).2 (by norm_num)

/-! ## Records and the nearest-match scan -/

/-- One `{"id": ..., "encoding": ...}` entry as built by
`get_public_cases_data` / `get_registered_cases_data` in `match_algo.py`. -/
structure CaseRec where
  id : String
  encoding : List ℚ
deriving DecidableEq

/-- Python truthiness of the `best_match_id` variable (a `str | None`):
`None` and the empty string are falsy.  Models the `if best_match_id and …`
acceptance guards in `match` (line 160) and `match_one_against_all`
(line 279).  Stored ids are UUID strings, hence never empty in practice. -/
def pythonTruthy : Option String → Bool
  | none => false
  | some s => !decide (s = "")

/-- One iteration of the Batch Matcher's inner loop (`match`, lines 140–158):
skip placeholder candidates (`np.sum(reg_encoding) == 0`), skip dimension
mismatches, otherwise compute the cosine distance and take the candidate when
`dist < min_distance` (strict, so the first-seen minimum is kept on ties).
State is `(best_match_id, min_distance)`, initially `(None, 100.0)`.
The `try/except: continue` around the distance call is dead in the model:
`calculate_cosine_distance` is total, and `np.dot` cannot raise behind the
dimension check. -/
noncomputable def stepBatch (pub_encoding : List ℚ)
    (st : Option String × ℝ) (c : CaseRec) : Option String × ℝ :=
  if listSum c.encoding = 0 then st
  else if c.encoding.length ≠ pub_encoding.length then st
  else
    let dist := calculate_cosine_distance pub_encoding c.encoding
    if dist < st.2 then (some c.id, dist) else st

/-- One iteration of the Incremental Matcher's inner loop
(`match_one_against_all`, lines 257–274): identical to `stepBatch` except
that there is NO placeholder (zero-sum) check on candidates. -/
noncomputable def stepIncr (target_encoding : List ℚ)
    (st : Option String × ℝ) (c : CaseRec) : Option String × ℝ :=
  if c.encoding.length ≠ target_encoding.length then st
  else
    let dist := calculate_cosine_distance target_encoding c.encoding
    if dist < st.2 then (some c.id, dist) else st

/-- The Batch Matcher's full inner scan for one query. -/
noncomputable def scanBatch (q : List ℚ) (cands : List CaseRec) :
    Option String × ℝ :=
  cands.foldl (stepBatch q) (none, 100)

/-- The Incremental Matcher's full scan for one target. -/
noncomputable def scanIncr (q : List ℚ) (cands : List CaseRec) :
    Option String × ℝ :=
  cands.foldl (stepIncr q) (none, 100)

/-- Batch eligibility: the candidate survives both skip checks. -/
def eligBatch (q : List ℚ) (c : CaseRec) : Bool :=
  !decide (listSum c.encoding = 0) && decide (c.encoding.length = q.length)

/-- Incremental eligibility: only the dimension check. -/
def eligIncr (q : List ℚ) (c : CaseRec) : Bool :=
  decide (c.encoding.length = q.length)

/-- Mathematical core of both scans: fold of strict-minimum tracking over
`(id, distance)` pairs. -/
noncomputable def minFold (l : List (String × ℝ)) (st : Option String × ℝ) :
    Option String × ℝ :=
  l.foldl (fun st p => if p.2 < st.2 then (some p.1, p.2) else st) st

theorem foldl_filter_id {α β : Type} (f : β → α → β) (p : α → Bool)
    (h : ∀ b a, p a = false → f b a = b) :
    ∀ (l : List α) (b : β), l.foldl f b = (l.filter p).foldl f b := by
  intro l
  induction l with
  | nil => intro b; rfl
  | cons a l ih =>
      intro b
      by_cases hp : p a = true
      · rw [List.foldl_cons, List.filter_cons_of_pos hp, List.foldl_cons, ih]
      · rw [List.foldl_cons,
          List.filter_cons_of_neg (by simpa using hp),
          h b a (by simpa using hp), ih]

/-- Dimension-mismatched (and, for Batch, zero-sum) candidates are complete
no-ops: scanning a list is the same as scanning its eligible sublist. -/
theorem scanBatch_eq_filter (q : List ℚ) (cands : List CaseRec) :
    scanBatch q cands = scanBatch q (cands.filter (eligBatch q)) := by
  unfold scanBatch
  apply foldl_filter_id
  intro st c hc
  unfold eligBatch at hc
  unfold stepBatch
  by_cases h0 : listSum c.encoding = 0
  · rw [if_pos h0]
  · rw [if_neg h0]
    have hdim : c.encoding.length ≠ q.length := by
      simp only [Bool.and_eq_false_iff, Bool.not_eq_false', decide_eq_true_eq,
        decide_eq_false_iff_not] at hc
      tauto
    rw [if_pos hdim]

theorem scanIncr_eq_filter (q : List ℚ) (cands : List CaseRec) :
    scanIncr q cands = scanIncr q (cands.filter (eligIncr q)) := by
  unfold scanIncr
  apply foldl_filter_id
  intro st c hc
  unfold eligIncr at hc
  unfold stepIncr
  rw [if_pos (by simpa using hc)]

/-- Over an all-eligible candidate list, the Incremental scan is exactly the
strict-minimum fold over the `(id, distance)` pairs. -/
theorem scanIncr_eq_minFold_aux (q : List ℚ) :
    ∀ (cands : List CaseRec) (st : Option String × ℝ),
      (∀ c ∈ cands, eligIncr q c = true) →
      cands.foldl (stepIncr q) st =
        minFold (cands.map fun c => (c.id, calculate_cosine_distance q c.encoding)) st := by
  intro cands
  induction cands with
  | nil => intro st _; rfl
  | cons c l ih =>
      intro st hall
      have hc : c.encoding.length = q.length := by
        have := hall c (List.mem_cons_self c l)
        simpa [eligIncr] using this
      rw [List.foldl_cons, List.map_cons]
      unfold minFold
      rw [List.foldl_cons]
      have hstep : stepIncr q st c =
          (if calculate_cosine_distance q c.encoding < st.2
            then (some c.id, calculate_cosine_distance q c.encoding) else st) := by
        unfold stepIncr
        rw [if_neg (by simp [hc])]
      rw [hstep]
      exact ih _ (fun x hx => hall x (List.mem_cons_of_mem c hx))

theorem scanBatch_eq_minFold_aux (q : List ℚ) :
    ∀ (cands : List CaseRec) (st : Option String × ℝ),
      (∀ c ∈ cands, eligBatch q c = true) →
      cands.foldl (stepBatch q) st =
        minFold (cands.map fun c => (c.id, calculate_cosine_distance q c.encoding)) st := by
  intro cands
  induction cands with
  | nil => intro st _; rfl
  | cons c l ih =>
      intro st hall
      have hc := hall c (List.mem_cons_self c l)
      have hc0 : ¬ listSum c.encoding = 0 := by
        simp only [eligBatch, Bool.and_eq_true, Bool.not_eq_true', decide_eq_true_eq,
          decide_eq_false_iff_not] at hc
        exact hc.1
      have hcd : c.encoding.length = q.length := by
        simp only [eligBatch, Bool.and_eq_true, Bool.not_eq_true', decide_eq_true_eq,
          decide_eq_false_iff_not] at hc
        exact hc.2
      rw [List.foldl_cons, List.map_cons]
      unfold minFold
      rw [List.foldl_cons]
      have hstep : stepBatch q st c =
          (if calculate_cosine_distance q c.encoding < st.2
            then (some c.id, calculate_cosine_distance q c.encoding) else st) := by
        unfold stepBatch
        rw [if_neg hc0, if_neg (by simp [hcd])]
      rw [hstep]
      exact ih _ (fun x hx => hall x (List.mem_cons_of_mem c hx))

/-- Invariant of the strict-minimum fold: either nothing beat the incoming
state (which is then a lower bound of the whole list), or the result is the
first element attaining the overall minimum, every earlier element being
strictly larger and every later one at least as large. -/
theorem minFold_inv :
    ∀ (l : List (String × ℝ)) (st : Option String × ℝ),
      (minFold l st = st ∧ ∀ x ∈ l, st.2 ≤ x.2) ∨
      (∃ pre p post, l = pre ++ p :: post ∧
        minFold l st = (some p.1, p.2) ∧ p.2 < st.2 ∧
        (∀ x ∈ post, p.2 ≤ x.2) ∧ (∀ x ∈ pre, p.2 < x.2)) := by
  intro l
  induction l with
  | nil => intro st; left; exact ⟨rfl, by simp⟩
  | cons a l ih =>
      intro st
      by_cases ha : a.2 < st.2
      · have hstep : minFold (a :: l) st = minFold l (some a.1, a.2) := by
          unfold minFold
          rw [List.foldl_cons, if_pos ha]
        rcases ih (some a.1, a.2) with ⟨heq, hlb⟩ | ⟨pre, p, post, hsplit, heq, hlt, hpost, hpre⟩
        · right
          refine ⟨[], a, l, by simp, ?_, ha, ?_, by simp⟩
          · rw [hstep, heq]
          · intro x hx; exact hlb x hx
        · right
          refine ⟨a :: pre, p, post, by rw [hsplit]; rfl, ?_, ?_, hpost, ?_⟩
          · rw [hstep, heq]
          · exact lt_trans (by simpa using hlt) ha
          · intro x hx
            rcases List.mem_cons.mp hx with hx | hx
            · rw [hx]; simpa using hlt
            · exact hpre x hx
      · have hstep : minFold (a :: l) st = minFold l st := by
          unfold minFold
          rw [List.foldl_cons, if_neg ha]
        rcases ih st with ⟨heq, hlb⟩ | ⟨pre, p, post, hsplit, heq, hlt, hpost, hpre⟩
        · left
          refine ⟨by rw [hstep, heq], ?_⟩
          intro x hx
          rcases List.mem_cons.mp hx with hx | hx
          · rw [hx]; exact le_of_not_lt ha
          · exact hlb x hx
        · right
          refine ⟨a :: pre, p, post, by rw [hsplit]; rfl, ?_, hlt, hpost, ?_⟩
          · rw [hstep, heq]
          · intro x hx
            rcases List.mem_cons.mp hx with hx | hx
            · rw [hx]; exact lt_of_lt_of_le hlt (le_of_not_lt ha)
            · exact hpre x hx

/-- With all distances strictly below the `100.0` initialisation, the fold
started at `(None, 100.0)` over a nonempty list returns the first-seen
minimum. -/
theorem minFold_argmin (l : List (String × ℝ))
    (hlt : ∀ x ∈ l, x.2 < 100) (hne : l ≠ []) :
    ∃ pre p post, l = pre ++ p :: post ∧
      minFold l (none, 100) = (some p.1, p.2) ∧
      (∀ x ∈ l, p.2 ≤ x.2) ∧ (∀ x ∈ pre, p.2 < x.2) := by
  rcases minFold_inv l (none, 100) with ⟨_, hlb⟩ | ⟨pre, p, post, hsplit, heq, _, hpost, hpre⟩
  · exfalso
    rcases List.exists_mem_of_ne_nil l hne with ⟨x, hx⟩
    exact absurd (hlb x hx) (not_le_of_lt (hlt x hx))
  · refine ⟨pre, p, post, hsplit, heq, ?_, hpre⟩
    intro x hx
    rw [hsplit] at hx
    rcases List.mem_append.mp hx with hx | hx
    · exact le_of_lt (hpre x hx)
    · rcases List.mem_cons.mp hx with hx | hx
      · rw [hx]
      · exact hpost x hx

/-- The best id produced by the strict-minimum fold is `none` or one of the
scanned ids. -/
theorem minFold_fst_mem :
    ∀ (l : List (String × ℝ)) (st : Option String × ℝ),
      (minFold l st).1 = st.1 ∨ (minFold l st).1 ∈ l.map (fun p => some p.1) := by
  intro l
  induction l with
  | nil => intro st; left; rfl
  | cons a l ih =>
      intro st
      by_cases ha : a.2 < st.2
      · have hstep : minFold (a :: l) st = minFold l (some a.1, a.2) := by
          unfold minFold; rw [List.foldl_cons, if_pos ha]
        rcases ih (some a.1, a.2) with h | h
        · right; rw [hstep, h]; simp
        · right; rw [hstep]; simp only [List.map_cons, List.mem_cons]; right; exact h
      · have hstep : minFold (a :: l) st = minFold l st := by
          unfold minFold; rw [List.foldl_cons, if_neg ha]
        rcases ih st with h | h
        · left; rw [hstep, h]
        · right; rw [hstep]; simp only [List.map_cons, List.mem_cons]; right; exact h

/-! ## Database model, repository adapters, and the two matchers

The relational store (`data_models.py` / `db_queries.py`) is modelled by
explicit record lists.  A stored `face_mesh` JSON string is represented by
its `json.loads` result: `none` models a string whose decoding raises. -/

structure RegCase where
  id : String
  status : String
  face_mesh : Option (List ℚ)
  matched_with : Option String
deriving DecidableEq

structure PubCase where
  id : String
  status : String
  face_mesh : Option (List ℚ)
deriving DecidableEq

structure DB where
  regs : List RegCase
  pubs : List PubCase
deriving DecidableEq

/-- `db_queries.fetch_public_cases(train_data=True, status)`: `(id, face_mesh)`
rows of public submissions, filtered by status unless it is `"All"`. -/
def fetch_public_rows (db : DB) (status : String) : List (String × Option (List ℚ)) :=
  (if status = "All" then db.pubs
   else db.pubs.filter fun p => decide (p.status = status)).map
    fun p => (p.id, p.face_mesh)

/-- The inline query in `get_registered_cases_data`: `(id, face_mesh)` rows of
registered cases with the given status. -/
def fetch_registered_rows (db : DB) (status : String) : List (String × Option (List ℚ)) :=
  (db.regs.filter fun r => decide (r.status = status)).map
    fun r => (r.id, r.face_mesh)

/-- Decoding step shared by both adapters: keep a row only when the JSON
decodes (`json.loads` does not raise) and the decoded list is non-empty
(`if encoding and len(encoding) > 0`). -/
def decodeRow : String × Option (List ℚ) → Option CaseRec
  | (_, none) => none
  | (cid, some enc) => if enc = [] then none else some ⟨cid, enc⟩

/-- `get_public_cases_data` (`match_algo.py` lines 40–62), at the default
`status="NF"` used by both matchers: returns `None` when there are no rows or
no decodable rows, otherwise the decoded `(id, encoding)` records. -/
def get_public_cases_data (db : DB) : Option (List CaseRec) :=
  let result := fetch_public_rows db "NF"
  if result = [] then none
  else
    let data := result.filterMap decodeRow
    if data = [] then none else some data

/-- `get_registered_cases_data` (`match_algo.py` lines 65–98) at `status="NF"`. -/
def get_registered_cases_data (db : DB) : Option (List CaseRec) :=
  let result := fetch_registered_rows db "NF"
  if result = [] then none
  else
    let data := result.filterMap decodeRow
    if data = [] then none else some data

/-- `db_queries.update_matched_with` (lines 300–316): set `matched_with` of
the registered case with the given primary key to the public id.  It does
NOT touch `status`.  `one_or_none()` on a primary-key lookup yields at most
one row, and a missing row is a logged no-op, which the map models. -/
def update_matched_with (db : DB) (registered_case_id public_case_id : String) : DB :=
  { db with
    regs := db.regs.map fun r =>
      if r.id = registered_case_id then { r with matched_with := some public_case_id }
      else r }

/-- Python 3 `round(x, 2)` (round-half-to-even), modelled exactly on the
rationals that stand in for the floats. -/
def roundHalfEven (x : ℚ) : ℤ :=
  if x - ⌊x⌋ < 1 / 2 then ⌊x⌋
  else if 1 / 2 < x - ⌊x⌋ then ⌊x⌋ + 1
  else if Even ⌊x⌋ then ⌊x⌋ else ⌊x⌋ + 1

def pyRound2 (x : ℚ) : ℚ := (roundHalfEven (x * 100) : ℚ) / 100

noncomputable def roundHalfEvenR (x : ℝ) : ℤ :=
  if x - ⌊x⌋ < 1 / 2 then ⌊x⌋
  else if 1 / 2 < x - ⌊x⌋ then ⌊x⌋ + 1
  else if Even ⌊x⌋ then ⌊x⌋ else ⌊x⌋ + 1

noncomputable def pyRound2R (x : ℝ) : ℝ := (roundHalfEvenR (x * 100) : ℝ) / 100

/-- One `{"public_id", "distance", "confidence"}` entry appended to
`matched_images[best_match_id]` in `match`. -/
structure MatchEntry where
  public_id : String
  distance : ℝ
  confidence : ℝ

/-- Return value of `match`: an error dict (`status=False` with a message) or
`status=True` with the accepted links.  `matched_images` is a dict grouping
the entries by registered id; the model keeps the `(best_match_id, entry)`
pairs in loop order, which carries the same information. -/
inductive BatchOutcome
  | err (message : String)
  | ok (links : List (String × MatchEntry))

/-- The body of the Batch Matcher's outer loop for one public submission
(`match`, lines 129–175): skip placeholder queries (`np.sum == 0`), scan all
registered candidates, and on acceptance
(`if best_match_id and min_distance <= tolerance`) produce the
`(best_match_id, entry)` pair that is persisted and appended. -/
noncomputable def pubContribution (tolerance : ℝ) (regs : List CaseRec)
    (p : CaseRec) : Option (String × MatchEntry) :=
  if listSum p.encoding = 0 then none
  else
    match scanBatch p.encoding regs with
    | (some best, dmin) =>
        if pythonTruthy (some best) ∧ dmin ≤ tolerance then
          some (best, ⟨p.id, dmin, pyRound2R ((1 - dmin) * 100)⟩)
        else none
    | (none, _) => none

/-- All accepted links of one batch run, in loop order. -/
noncomputable def acceptedLinks (tolerance : ℝ) (pubs regs : List CaseRec) :
    List (String × MatchEntry) :=
  pubs.filterMap (pubContribution tolerance regs)

/-- The pure decision part of `match` (`match_algo.py` lines 101–177): the
guard chain over the loaded data and, when both populations are usable, the
accepted links of the scan loop. -/
noncomputable def batchDecision (deepface_available : Bool) (tolerance : ℝ)
    (pubData regData : Option (List CaseRec)) : BatchOutcome :=
  if deepface_available = false then .err "DeepFace library not installed"
  else
    match pubData, regData with
    | none, _ => .err "No data available for matching"
    | some _, none => .err "No data available for matching"
    | some pubs, some regs =>
        if pubs.length = 0 then .err "No public submissions to match"
        else if regs.length = 0 then .err "No registered cases to match against"
        else .ok (acceptedLinks tolerance pubs regs)

/-- `match` (`match_algo.py` lines 101–177), with the database state passed
explicitly.  Reads happen once up front (the loop iterates over in-memory
lists, so the interleaved `update_matched_with` writes never feed back into
the scan); on the success path the per-acceptance writes are applied in
loop order. -/
noncomputable def runMatch (deepface_available : Bool) (tolerance : ℝ)
    (db : DB) : BatchOutcome × DB :=
  match batchDecision deepface_available tolerance
      (get_public_cases_data db) (get_registered_cases_data db) with
  | .err m => (.err m, db)
  | .ok links =>
      (.ok links,
        links.foldl (fun d pr => update_matched_with d pr.1 pr.2.public_id) db)

/-- Result of scanning `raw_public` for the target row in
`match_one_against_all` (lines 204–219): the first row with the requested id
whose JSON decodes either triggers the early `Invalid/Zero encoding` return
(empty or zero-sum encoding) or becomes the target; rows whose decode raises
are skipped by `except: pass`. -/
inductive TargetLookup
  | invalid
  | found (enc : List ℚ)
  | notFound
deriving DecidableEq

def findPublicTarget (cid : String) : List (String × Option (List ℚ)) → TargetLookup
  | [] => .notFound
  | (pid, mesh) :: rest =>
      if pid = cid then
        match mesh with
        | none => findPublicTarget cid rest
        | some enc =>
            if enc = [] ∨ listSum enc = 0 then .invalid else .found enc
      else findPublicTarget cid rest

/-- Return value of `match_one_against_all`: `err` is a `status=False` dict
with the given message, `emptyOk` is `{"status": True, "result": {}}`,
`matched`/`noMatch` are the `status=True` outcomes with and without
`match_found`. -/
inductive OneOutcome
  | err (message : String)
  | emptyOk
  | matched (registered_id public_id : String) (distance : ℝ)
  | noMatch

/-- Steps 2–3 of `match_one_against_all` (lines 250–302): scan the candidates
(no zero-sum check, dimension check only), then accept iff
`best_match_id and min_distance <= tolerance`, persisting via
`update_matched_with` with the registered/public orientation decided by
`case_type`. -/
noncomputable def incrScanResult (case_id case_type : String) (tolerance : ℝ)
    (target_encoding : List ℚ) (cands : List CaseRec) (db : DB) :
    OneOutcome × DB :=
  match scanIncr target_encoding cands with
  | (some best, dmin) =>
      if pythonTruthy (some best) ∧ dmin ≤ tolerance then
        let reg_id := if case_type = "public" then best else case_id
        let pub_id := if case_type = "public" then case_id else best
        (.matched reg_id pub_id dmin, update_matched_with db reg_id pub_id)
      else (.noMatch, db)
  | (none, _) => (.noMatch, db)

/-- `match_one_against_all` (`match_algo.py` lines 180–302), database state
explicit.  Note the asymmetry of the target checks: the `"public"` path
rejects an empty/zero-sum target with `Invalid/Zero encoding`, while the
`"registered"` path takes the target from `get_registered_cases_data`
(which only drops undecodable/empty rows) and performs NO zero check. -/
noncomputable def match_one_against_all (deepface_available : Bool) (db : DB)
    (case_id : String) (case_type : String) (tolerance : ℝ) : OneOutcome × DB :=
  if deepface_available = false then (.err "DeepFace not installed", db)
  else if case_type = "public" then
    match findPublicTarget case_id (fetch_public_rows db "NF") with
    | .invalid => (.err "Invalid/Zero encoding", db)
    | .notFound => (.err "Case not found", db)
    | .found target_encoding =>
        match get_registered_cases_data db with
        | none => (.emptyOk, db)
        | some cands =>
            if cands = [] then (.emptyOk, db)
            else incrScanResult case_id "public" tolerance target_encoding cands db
  else if case_type = "registered" then
    match (get_registered_cases_data db).bind
        (fun l => l.find? fun rc => decide (rc.id = case_id)) with
    | none => (.err "Case not found", db)
    | some target =>
        match get_public_cases_data db with
        | none => (.emptyOk, db)
        | some cands =>
            if cands = [] then (.emptyOk, db)
            else incrScanResult case_id "registered" tolerance target.encoding cands db
  else (.err "Invalid case_type", db)

/-! ## Video frame sampler and scan pipeline (`video_processor.py`) -/

/-- The timestamp-building while-loop of `process_video` (lines 330–334):
`t = 0.0; while t < duration_sec: extraction_times.append(t); t += FRAME_INTERVAL_SECONDS`.
The source interval is the positive constant `FRAME_INTERVAL_SECONDS = 1`;
the loop only terminates for a positive interval, which the model bakes into
the guard. -/
def sampleTimes (duration interval t : ℚ) : List ℚ :=
  if h : 0 < interval ∧ t < duration then
    t :: sampleTimes duration interval (t + interval)
  else []
termination_by (⌈(duration - t) / interval⌉).toNat
decreasing_by
  obtain ⟨hi, ht⟩ := h
  have hpos : 0 < (duration - t) / interval := div_pos (by linarith) hi
  have hceil : 0 < ⌈(duration - t) / interval⌉ := Int.ceil_pos.mpr hpos
  have heq : (duration - (t + interval)) / interval = (duration - t) / interval - 1 := by
    field_simp
    ring
  rw [heq]
  rw [show ((duration - t) / interval - 1 : ℚ) = ((duration - t) / interval) - ((1 : ℤ) : ℚ) by push_cast; ring]
  rw [Int.ceil_sub_int]
  omega

/-- `FRAME_INTERVAL_SECONDS` (`video_processor.py` line 39). -/
def FRAME_INTERVAL_SECONDS : ℚ := 1

/-- The sampled timestamps for a video of the given duration, at a sampling
interval (the source always passes `FRAME_INTERVAL_SECONDS`). -/
def extraction_times (duration interval : ℚ) : List ℚ :=
  sampleTimes duration interval 0

theorem sampleTimes_unfold (d i t : ℚ) :
    sampleTimes d i t = if 0 < i ∧ t < d then t :: sampleTimes d i (t + i) else [] := by
  rw [sampleTimes]
  by_cases h : 0 < i ∧ t < d
  · rw [dif_pos h, if_pos h]
  · rw [dif_neg h, if_neg h]

/-- Closed form of the sampling loop: starting from `t`, the produced list is
`[t, t+i, …]`, every entry is strictly below the duration, and (for a
positive interval) one more step would reach or pass the duration. -/
theorem sampleTimes_spec (d i : ℚ) :
    ∀ n : ℕ, ∀ t : ℚ, (sampleTimes d i t).length ≤ n →
      sampleTimes d i t =
        (List.range (sampleTimes d i t).length).map (fun k : ℕ => t + (k : ℚ) * i) ∧
      (∀ k : ℕ, k < (sampleTimes d i t).length → t + (k : ℚ) * i < d) ∧
      (0 < i → d ≤ t + ((sampleTimes d i t).length : ℚ) * i) := by
  intro n
  induction n with
  | zero =>
      intro t hlen
      have h0 : sampleTimes d i t = [] := List.length_eq_zero.mp (Nat.le_zero.mp hlen)
      refine ⟨by rw [h0]; simp, by simp [h0], ?_⟩
      intro hi
      rw [h0]
      simp only [List.length_nil, Nat.cast_zero, zero_mul, add_zero]
      by_contra hcon
      push_neg at hcon
      have hcons : sampleTimes d i t = t :: sampleTimes d i (t + i) := by
        rw [sampleTimes_unfold, if_pos ⟨hi, hcon⟩]
      rw [h0] at hcons
      exact List.cons_ne_nil _ _ hcons.symm
  | succ n ih =>
      intro t hlen
      by_cases hg : 0 < i ∧ t < d
      · have hrec : sampleTimes d i t = t :: sampleTimes d i (t + i) := by
          rw [sampleTimes_unfold, if_pos hg]
        have hlen' : (sampleTimes d i (t + i)).length ≤ n := by
          rw [hrec] at hlen
          simpa using hlen
        obtain ⟨ih1, ih2, ih3⟩ := ih (t + i) hlen'
        refine ⟨?_, ?_, ?_⟩
        · rw [hrec, List.length_cons, List.range_succ_eq_map, List.map_cons, List.map_map]
          congr 1
          · norm_num
          · conv_lhs => rw [ih1]
            apply List.map_congr_left
            intro k _
            simp only [Function.comp_apply]
            push_cast
            ring
        · intro k hk
          rw [hrec, List.length_cons] at hk
          cases k with
          | zero => simpa using hg.2
          | succ j =>
              have hj : j < (sampleTimes d i (t + i)).length := by omega
              have hje := ih2 j hj
              push_cast
              push_cast at hje
              linarith
        · intro hi
          have hub := ih3 hi
          rw [hrec, List.length_cons]
          push_cast
          push_cast at hub
          linarith
      · have h0 : sampleTimes d i t = [] := by
          rw [sampleTimes_unfold, if_neg hg]
        refine ⟨by rw [h0]; simp, by simp [h0], ?_⟩
        intro hi
        rw [h0]
        simp only [List.length_nil, Nat.cast_zero, zero_mul, add_zero]
        rcases not_and_or.mp hg with h | h
        · exact absurd hi h
        · linarith [not_lt.mp h]

/-- A persisted `VideoDetections` row, restricted to the fields the claims
inspect (`id`, `cropped_face_path` and `detected_at` are identity/file/time
concerns outside the matching algorithm). -/
structure VideoDetection where
  video_id : String
  case_id : String
  timestamp_seconds : ℚ
  confidence : ℝ
  frame_number : ℕ

/-- The per-face inner loop of one sampled frame (`process_video` lines
376–413): for each embedding returned by `_detect_and_embed`, skip it on a
dimension mismatch with the target, compute the cosine distance, and when
`distance <= threshold` create a `VideoDetections` record with
`timestamp_seconds = round(timestamp_sec, 2)`,
`confidence = round((1.0 - distance) * 100.0, 2)` and the frame index. -/
noncomputable def frameDetections (video_id case_id : String)
    (target_embedding : List ℚ) (threshold : ℝ) (frame_idx : ℕ)
    (timestamp_sec : ℚ) (faces : List (List ℚ)) : List VideoDetection :=
  faces.filterMap fun embedding =>
    if embedding.length ≠ target_embedding.length then none
    else
      let distance := cosine_distance_video target_embedding embedding
      if distance ≤ threshold then
        some ⟨video_id, case_id, pyRound2 timestamp_sec,
          pyRound2R ((1 - distance) * 100), frame_idx⟩
      else none

/-! ## Video validation and the upload route -/

/-- `ALLOWED_EXTENSIONS` (`video_processor.py` line 240). -/
def ALLOWED_EXTENSIONS : List String := [".mp4", ".avi", ".mkv", ".mov", ".wmv"]

/-- `MAX_VIDEO_SIZE_BYTES = 2 * 1024 * 1024 * 1024` (line 44). -/
def MAX_VIDEO_SIZE_BYTES : ℕ := 2 * 1024 * 1024 * 1024

/-- The observable properties of a saved video file that
`validate_video_file` inspects: the lower-cased extension from
`os.path.splitext`, the byte size from `os.path.getsize`, whether
`cv2.VideoCapture` opens it, and the container's FPS and frame count. -/
structure VideoFile where
  ext : String
  size : ℕ
  opens : Bool
  fps : ℚ
  frame_count : ℤ

/-- `validate_video_file` (`video_processor.py` lines 243–269).  The check
order matches the source; in particular the non-positive FPS check precedes
the duration division, so no division by zero occurs.  The interpolated
numbers of the source's f-strings are elided from the messages. -/
def validate_video_file (f : VideoFile) : Bool × Option String :=
  if f.ext ∉ ALLOWED_EXTENSIONS then
    (false, some ("Unsupported format: " ++ f.ext))
  else if MAX_VIDEO_SIZE_BYTES < f.size then
    (false, some "File too large. Max: 2 GB")
  else if f.opens = false then
    (false, some "Cannot open video file. It may be corrupt.")
  else if f.fps ≤ 0 ∨ f.frame_count ≤ 0 then
    (false, some "Invalid video: cannot determine FPS or frame count.")
  else if 1800 < (f.frame_count : ℚ) / f.fps then
    (false, some "Video too long. Max: 30 minutes.")
  else (true, none)

/-- Decision core of the upload route `api/routers/video.py::upload_video`:
the selected case must exist, the filename extension must be in the
allow-list (router-level pre-check), the file must save to disk, and
`validate_video_file` must pass; only then is the `VideoUploads` record
created and `process_video` scheduled as a background task.  A validation
failure deletes the saved file and raises `HTTPException(400)` instead, so
no frame of a rejected video is ever sampled. -/
def upload_starts_processing (case_exists save_ok : Bool) (f : VideoFile) : Bool :=
  case_exists && decide (f.ext ∈ ALLOWED_EXTENSIONS) && save_ok &&
    (validate_video_file f).1

/-! ## The video scan orchestrator's error/resource discipline -/

/-- The fields of a `VideoUploads` row read by `process_video`. -/
structure UploadRec where
  case_id : String
  file_path : String
  confidence_threshold : ℝ

/-- One `db_queries.update_video_status` call, restricted to the status
string and the optional error message (the claims do not inspect the
progress counters passed alongside). -/
structure StatusCall where
  status : String
  error_message : Option String
deriving DecidableEq

/-- Python's `error_msg[:500]` slice, by characters. -/
def pySlice500 (s : String) : String := String.mk (s.data.take 500)

/-- Environment of one `process_video` run: the outcome of each external
step.  `json_decode` models `json.loads` (`Except.error` = it raised, the
payload being the formatted `type(e).__name__: str(e)` text); `scan` models
the whole frame loop inside the `try` block — frame reads, detection,
cropping, the periodic batch writes — returning the final
`(processed, detection_count)` or the formatted text of the exception that
escaped it. -/
structure VideoEnv where
  upload : Option UploadRec
  face_mesh_json : Option String
  json_decode : String → Except String (List ℚ)
  deepface_ok : Bool
  cap_opens : Bool
  scan : Except String (ℕ × ℕ)

/-- `process_video` (`video_processor.py` lines 276–471), reduced to its
status-write and resource behaviour: the ordered `update_video_status`
calls it makes, and whether `cap.release()` ran.  The `try/except/finally`
structure becomes explicit case splits: every raise inside the `try` block
lands in the single `except` handler, which writes status `failed` with the
message truncated by `[:500]`; the `finally` block releases the capture iff
`cap` was constructed, i.e. iff the embedding-loading and DeepFace steps
had already succeeded. -/
def process_video_model (env : VideoEnv) : List StatusCall × Bool :=
  match env.upload with
  | none => ([], false)
  | some up =>
      let processing : StatusCall := ⟨"processing", none⟩
      let noEmb : String :=
        "ValueError: Case " ++ up.case_id ++ " has no face embedding in the database"
      match env.face_mesh_json with
      | none => ([processing, ⟨"failed", some (pySlice500 noEmb)⟩], false)
      | some s =>
          if s = "" then ([processing, ⟨"failed", some (pySlice500 noEmb)⟩], false)
          else
            match env.json_decode s with
            | .error e => ([processing, ⟨"failed", some (pySlice500 e)⟩], false)
            | .ok target =>
                if target = [] then
                  ([processing,
                    ⟨"failed", some (pySlice500 ("ValueError: Case " ++ up.case_id ++
                      " has an empty/invalid face embedding"))⟩], false)
                else if env.deepface_ok = false then
                  ([processing,
                    ⟨"failed", some (pySlice500
                      "RuntimeError: DeepFace is not available. Install with: pip install deepface")⟩],
                    false)
                else if env.cap_opens = false then
                  ([processing,
                    ⟨"failed", some (pySlice500
                      ("RuntimeError: Cannot open video file: " ++ up.file_path))⟩], true)
                else
                  match env.scan with
                  | .error e =>
                      ([processing, ⟨"processing", none⟩,
                        ⟨"failed", some (pySlice500 e)⟩], true)
                  | .ok _ =>
                      ([processing, ⟨"processing", none⟩, ⟨"done", none⟩], true)

/-- Whether the run constructs the `cv2.VideoCapture` (everything before the
`cap = cv2.VideoCapture(file_path)` line succeeded). -/
def capConstructed (env : VideoEnv) : Bool :=
  match env.upload with
  | none => false
  | some _ =>
      match env.face_mesh_json with
      | none => false
      | some s =>
          if s = "" then false
          else
            match env.json_decode s with
            | .error _ => false
            | .ok target =>
                if target = [] then false
                else env.deepface_ok

/-! ## Claim theorems -/

/-- C2: for equal-dimension embeddings (the only shape `np.dot` accepts), the
computed distance lies in `[0, 2]`; it equals `1 − cosine_similarity(a, b)`
whenever both norms are non-zero; it returns exactly `1.0` when either
vector has zero L2 norm (the check precedes the dot product, so this holds
without touching `np.dot`); and the video implementation agrees with the
matcher's.  Absence of side effects holds by construction: both embeddings
are pure functions of their arguments. -/
theorem C2_distance_contract (a b : List ℚ) (hlen : a.length = b.length) :
    (0 ≤ calculate_cosine_distance a b ∧ calculate_cosine_distance a b ≤ 2) ∧
    ((sumSq a = 0 ∨ sumSq b = 0) → calculate_cosine_distance a b = 1) ∧
    (sumSq a ≠ 0 → sumSq b ≠ 0 →
      calculate_cosine_distance a b = 1 - cosineSimilarity a b) ∧
    cosine_distance_video a b = calculate_cosine_distance a b := by
  refine ⟨calculate_cosine_distance_mem_Icc a b, ?_, ?_, rfl⟩
  · intro h
    unfold calculate_cosine_distance
    rw [if_pos]
    rcases h with h | h
    · exact Or.inl ((l2norm_eq_zero_iff a).mpr h)
    · exact Or.inr ((l2norm_eq_zero_iff b).mpr h)
  · intro ha hb
    unfold calculate_cosine_distance cosineSimilarity
    rw [if_neg]
    push_neg
    exact ⟨fun h => ha ((l2norm_eq_zero_iff a).mp h),
      fun h => hb ((l2norm_eq_zero_iff b).mp h)⟩

/-- Witness for C2 at `a = [3,4]`, `b = [4,3]` (norms `5` and `5`). -/
theorem C2_distance_contract_witness :
    ([3, 4] : List ℚ).length = ([4, 3] : List ℚ).length ∧
    ((0 ≤ calculate_cosine_distance [3, 4] [4, 3] ∧
        calculate_cosine_distance [3, 4] [4, 3] ≤ 2) ∧
      ((sumSq [3, 4] = 0 ∨ sumSq [4, 3] = 0) →
        calculate_cosine_distance [3, 4] [4, 3] = 1) ∧
      (sumSq [3, 4] ≠ 0 → sumSq [4, 3] ≠ 0 →
        calculate_cosine_distance [3, 4] [4, 3] =
          1 - cosineSimilarity [3, 4] [4, 3]) ∧
      cosine_distance_video [3, 4] [4, 3] = calculate_cosine_distance [3, 4] [4, 3]) :=
  ⟨rfl, C2_distance_contract [3, 4] [4, 3] rfl⟩

/-- C10: the Batch Matcher's placeholder test is `np.sum(encoding) == 0`,
not "all entries are zero": `[1, -1, 0]` has zero element-sum but non-zero
L2 norm, yet the batch loop skips such a record entirely — as a query (its
loop-body contribution is `none`, exactly as for the zero sentinel
`[0, 0, 0]`) and as a candidate (the scan step leaves the `(best, min)`
state untouched, exactly as for the zero sentinel). -/
theorem C10_sum_zero_placeholder :
    listSum [1, -1, 0] = 0 ∧ sumSq [1, -1, 0] ≠ 0 ∧
    (∀ (tol : ℝ) (regs : List CaseRec) (pid : String),
      pubContribution tol regs ⟨pid, [1, -1, 0]⟩ = none ∧
      pubContribution tol regs ⟨pid, [0, 0, 0]⟩ = none) ∧
    (∀ (q : List ℚ) (st : Option String × ℝ) (cid : String),
      stepBatch q st ⟨cid, [1, -1, 0]⟩ = st ∧
      stepBatch q st ⟨cid, [0, 0, 0]⟩ = st) := by
  have h1 : listSum [1, -1, 0] = 0 := by norm_num [listSum]
  have h0 : listSum [0, 0, 0] = 0 := by norm_num [listSum]
  refine ⟨h1, by norm_num [sumSq, dotList], ?_, ?_⟩
  · intro tol regs pid
    constructor
    · unfold pubContribution
      rw [if_pos h1]
    · unfold pubContribution
      rw [if_pos h0]
  · intro q st cid
    constructor
    · unfold stepBatch
      rw [if_pos h1]
    · unfold stepBatch
      rw [if_pos h0]

/-- C8: `validate_video_file` returns a structured `(ok, reason)` pair — as
a total function of the file's observable properties it raises nothing —
with `ok = true` exactly when every check passes (allowed extension, size
within the 2 GB cap, openable container, positive FPS and frame count,
duration within the 30-minute cap); a reason string is present exactly when
validation fails; and the upload route never schedules `process_video` (so
no frame is ever sampled) for a file that fails validation — in particular
for an over-length video. -/
theorem C8_validation (f : VideoFile) :
    ((validate_video_file f).1 = true ↔
      (f.ext ∈ ALLOWED_EXTENSIONS ∧ f.size ≤ MAX_VIDEO_SIZE_BYTES ∧
        f.opens = true ∧ 0 < f.fps ∧ 0 < f.frame_count ∧
        (f.frame_count : ℚ) / f.fps ≤ 1800)) ∧
    ((validate_video_file f).2.isSome ↔ (validate_video_file f).1 = false) ∧
    (∀ case_exists save_ok : Bool, (validate_video_file f).1 = false →
      upload_starts_processing case_exists save_ok f = false) ∧
    (1800 < (f.frame_count : ℚ) / f.fps → (validate_video_file f).1 = false) := by
  have hmain : (validate_video_file f).1 = true ↔
      (f.ext ∈ ALLOWED_EXTENSIONS ∧ f.size ≤ MAX_VIDEO_SIZE_BYTES ∧
        f.opens = true ∧ 0 < f.fps ∧ 0 < f.frame_count ∧
        (f.frame_count : ℚ) / f.fps ≤ 1800) := by
    unfold validate_video_file
    by_cases h1 : f.ext ∉ ALLOWED_EXTENSIONS
    · rw [if_pos h1]
      simp only [Bool.false_eq_true, false_iff]
      intro hc; exact h1 hc.1
    · rw [if_neg h1]
      by_cases h2 : MAX_VIDEO_SIZE_BYTES < f.size
      · rw [if_pos h2]
        simp only [Bool.false_eq_true, false_iff]
        intro hc; exact absurd h2 (not_lt.mpr hc.2.1)
      · rw [if_neg h2]
        by_cases h3 : f.opens = false
        · rw [if_pos h3]
          simp only [Bool.false_eq_true, false_iff]
          intro hc
          rw [hc.2.2.1] at h3
          simp at h3
        · rw [if_neg h3]
          by_cases h4 : f.fps ≤ 0 ∨ f.frame_count ≤ 0
          · rw [if_pos h4]
            simp only [Bool.false_eq_true, false_iff]
            intro hc
            rcases h4 with h4 | h4
            · exact absurd hc.2.2.2.1 (not_lt.mpr h4)
            · exact absurd hc.2.2.2.2.1 (not_lt.mpr h4)
          · rw [if_neg h4]
            by_cases h5 : 1800 < (f.frame_count : ℚ) / f.fps
            · rw [if_pos h5]
              simp only [Bool.false_eq_true, false_iff]
              intro hc; exact absurd h5 (not_lt.mpr hc.2.2.2.2.2)
            · rw [if_neg h5]
              refine iff_of_true rfl ?_
              push_neg at h4
              exact ⟨by simpa using h1, not_lt.mp h2, by simpa using h3,
                h4.1, h4.2, not_lt.mp h5⟩
  have hreason : (validate_video_file f).2.isSome ↔ (validate_video_file f).1 = false := by
    unfold validate_video_file
    split_ifs <;> simp
  refine ⟨hmain, hreason, ?_, ?_⟩
  · intro ce so hfail
    unfold upload_starts_processing
    rw [hfail]
    simp
  · intro hlong
    cases hok : (validate_video_file f).1
    · rfl
    · exact absurd ((hmain.mp hok).2.2.2.2.2) (not_le.mpr hlong)

/-- Witness for C8 at an over-length `.mp4` file (2000 frames at 1 FPS =
2000 s > 1800 s): it fails validation and processing is never scheduled. -/
theorem C8_validation_witness :
    (1800 < (((2000 : ℤ) : ℚ) / (1 : ℚ)) →
      (validate_video_file ⟨".mp4", 0, true, 1, 2000⟩).1 = false) ∧
    (validate_video_file ⟨".mp4", 0, true, 1, 2000⟩).1 = false ∧
    upload_starts_processing true true ⟨".mp4", 0, true, 1, 2000⟩ = false := by
  have h := C8_validation ⟨".mp4", 0, true, 1, 2000⟩
  have hlong : (1800 : ℚ) < ((2000 : ℤ) : ℚ) / (1 : ℚ) := by norm_num
  have hfail := h.2.2.2 hlong
  exact ⟨h.2.2.2, hfail, h.2.2.1 true true hfail⟩

theorem pySlice500_length (s : String) : (pySlice500 s).length ≤ 500 := by
  unfold pySlice500
  show (s.data.take 500).length ≤ 500
  simpa using List.length_take_le 500 s.data

/-- C7: once the upload record is found, every run of `process_video` ends
with a terminal status write — `failed` carrying an error message of at most
500 characters (the `[:500]` slice) on any exception, `done` on success —
the released flag always equals "the capture was constructed" (the `finally`
block runs on every exit path), and an exception escaping the frame-scan
loop after the capture was opened specifically yields the truncated `failed`
write together with the release. -/
theorem C7_failure_and_release (env : VideoEnv) (up : UploadRec)
    (hup : env.upload = some up) :
    ((process_video_model env).2 = capConstructed env) ∧
    (∀ c ∈ (process_video_model env).1, c.status = "failed" →
      ∃ m, c.error_message = some m ∧ m.length ≤ 500) ∧
    ((∃ m, ((process_video_model env).1).getLast? = some ⟨"failed", some m⟩ ∧
        m.length ≤ 500) ∨
      ((process_video_model env).1).getLast? = some ⟨"done", none⟩) ∧
    (∀ e, env.scan = Except.error e → capConstructed env = true →
      env.cap_opens = true →
      ((process_video_model env).1).getLast? =
        some ⟨"failed", some (pySlice500 e)⟩ ∧ (process_video_model env).2 = true) := by
  unfold process_video_model capConstructed
  rw [hup]
  cases hjson : env.face_mesh_json with
  | none =>
      dsimp only
      refine ⟨rfl, ?_, ?_, ?_⟩
      · intro c hc hcf
        rcases List.mem_cons.mp hc with hc | hc
        · rw [hc] at hcf; exact absurd hcf (by decide)
        · rcases List.mem_singleton.mp hc with rfl
          exact ⟨_, rfl, pySlice500_length _⟩
      · exact Or.inl ⟨_, rfl, pySlice500_length _⟩
      · intro e _ hcap _; exact Bool.noConfusion hcap
  | some s =>
      dsimp only
      by_cases hs : s = ""
      · rw [if_pos hs, if_pos hs]
        refine ⟨rfl, ?_, ?_, ?_⟩
        · intro c hc hcf
          rcases List.mem_cons.mp hc with hc | hc
          · rw [hc] at hcf; exact absurd hcf (by decide)
          · rcases List.mem_singleton.mp hc with rfl
            exact ⟨_, rfl, pySlice500_length _⟩
        · exact Or.inl ⟨_, rfl, pySlice500_length _⟩
        · intro e _ hcap _; exact Bool.noConfusion hcap
      · rw [if_neg hs, if_neg hs]
        cases hdec : env.json_decode s with
        | error e0 =>
            dsimp only
            refine ⟨rfl, ?_, ?_, ?_⟩
            · intro c hc hcf
              rcases List.mem_cons.mp hc with hc | hc
              · rw [hc] at hcf; exact absurd hcf (by decide)
              · rcases List.mem_singleton.mp hc with rfl
                exact ⟨_, rfl, pySlice500_length _⟩
            · exact Or.inl ⟨_, rfl, pySlice500_length _⟩
            · intro e _ hcap _; exact Bool.noConfusion hcap
        | ok target =>
            dsimp only
            by_cases htgt : target = []
            · rw [if_pos htgt, if_pos htgt]
              refine ⟨rfl, ?_, ?_, ?_⟩
              · intro c hc hcf
                rcases List.mem_cons.mp hc with hc | hc
                · rw [hc] at hcf; exact absurd hcf (by decide)
                · rcases List.mem_singleton.mp hc with rfl
                  exact ⟨_, rfl, pySlice500_length _⟩
              · exact Or.inl ⟨_, rfl, pySlice500_length _⟩
              · intro e _ hcap _; exact Bool.noConfusion hcap
            · rw [if_neg htgt, if_neg htgt]
              cases hdf : env.deepface_ok with
              | false =>
                  rw [if_pos rfl]
                  refine ⟨rfl, ?_, ?_, ?_⟩
                  · intro c hc hcf
                    rcases List.mem_cons.mp hc with hc | hc
                    · rw [hc] at hcf; exact absurd hcf (by decide)
                    · rcases List.mem_singleton.mp hc with rfl
                      exact ⟨_, rfl, pySlice500_length _⟩
                  · exact Or.inl ⟨_, rfl, pySlice500_length _⟩
                  · intro e _ hcap _; exact Bool.noConfusion hcap
              | true =>
                  rw [if_neg (by decide : ¬(true = false))]
                  cases hcap : env.cap_opens with
                  | false =>
                      rw [if_pos rfl]
                      refine ⟨rfl, ?_, ?_, ?_⟩
                      · intro c hc hcf
                        rcases List.mem_cons.mp hc with hc | hc
                        · rw [hc] at hcf; exact absurd hcf (by decide)
                        · rcases List.mem_singleton.mp hc with rfl
                          exact ⟨_, rfl, pySlice500_length _⟩
                      · exact Or.inl ⟨_, rfl, pySlice500_length _⟩
                      · intro e _ _ hcapo
                        exact Bool.noConfusion hcapo
                  | true =>
                      rw [if_neg (by decide : ¬(true = false))]
                      cases hscan : env.scan with
                      | error e1 =>
                          dsimp only
                          refine ⟨rfl, ?_, ?_, ?_⟩
                          · intro c hc hcf
                            rcases List.mem_cons.mp hc with hc | hc
                            · rw [hc] at hcf; exact absurd hcf (by decide)
                            · rcases List.mem_cons.mp hc with hc | hc
                              · rw [hc] at hcf; exact absurd hcf (by decide)
                              · rcases List.mem_singleton.mp hc with rfl
                                exact ⟨_, rfl, pySlice500_length _⟩
                          · exact Or.inl ⟨_, rfl, pySlice500_length _⟩
                          · intro e hsce _ _
                            have he : e1 = e := by
                              injection hsce with h
                            rw [he]
                            exact ⟨rfl, rfl⟩
                      | ok r =>
                          dsimp only
                          refine ⟨rfl, ?_, ?_, ?_⟩
                          · intro c hc hcf
                            rcases List.mem_cons.mp hc with hc | hc
                            · rw [hc] at hcf; exact absurd hcf (by decide)
                            · rcases List.mem_cons.mp hc with hc | hc
                              · rw [hc] at hcf; exact absurd hcf (by decide)
                              · rcases List.mem_singleton.mp hc with rfl
                                exact absurd hcf (by decide)
                          · exact Or.inr rfl
                          · intro e hsce _ _
                            exact absurd hsce (by simp)

/-- Witness for C7: a run whose frame loop raises `"Boom"` after the capture
opened — the upload record exists, the final status write is `failed` with
the truncated message, and the capture is released. -/
theorem C7_failure_and_release_witness :
    (VideoEnv.mk (some ⟨"c1", "v.mp4", 1⟩) (some "[1.0]")
        (fun _ => Except.ok [1]) true true (Except.error "Boom")).upload =
      some (⟨"c1", "v.mp4", 1⟩ : UploadRec) ∧
    ((process_video_model (VideoEnv.mk (some ⟨"c1", "v.mp4", 1⟩) (some "[1.0]")
        (fun _ => Except.ok [1]) true true (Except.error "Boom"))).2 =
      capConstructed (VideoEnv.mk (some ⟨"c1", "v.mp4", 1⟩) (some "[1.0]")
        (fun _ => Except.ok [1]) true true (Except.error "Boom"))) ∧
    ((process_video_model (VideoEnv.mk (some ⟨"c1", "v.mp4", 1⟩) (some "[1.0]")
        (fun _ => Except.ok [1]) true true (Except.error "Boom"))).1.getLast? =
      some ⟨"failed", some (pySlice500 "Boom")⟩) := by
  have h := C7_failure_and_release
    (VideoEnv.mk (some ⟨"c1", "v.mp4", 1⟩) (some "[1.0]")
      (fun _ => Except.ok [1]) true true (Except.error "Boom"))
    ⟨"c1", "v.mp4", 1⟩ rfl
  exact ⟨rfl, h.1, (h.2.2.2 "Boom" rfl (by rfl) rfl).1⟩

/-- C6: for a positive sampling interval `i`, the sampled timestamps are
exactly `0, i, 2i, …` strictly below the duration (the closed form also gives
their order and that one more step would reach the duration); a 600-second
(10-minute) video at a 1-second interval yields exactly 600 timestamps; and
every detection produced from the frame sampled at `42.0` seconds is
persisted with `timestamp_seconds = 42.0` (the stored value is
`round(timestamp_sec, 2)`). -/
theorem C6_sampling (d i : ℚ) (hi : 0 < i) :
    (extraction_times d i =
        (List.range (extraction_times d i).length).map (fun k : ℕ => (k : ℚ) * i)) ∧
    (∀ k : ℕ, k < (extraction_times d i).length → (k : ℚ) * i < d) ∧
    (d ≤ ((extraction_times d i).length : ℚ) * i) ∧
    (extraction_times 600 1).length = 600 ∧
    (∀ (vid cid : String) (target : List ℚ) (thr : ℝ) (idx : ℕ)
        (faces : List (List ℚ)),
      ∀ det ∈ frameDetections vid cid target thr idx 42 faces,
        det.timestamp_seconds = 42) := by
  unfold extraction_times
  obtain ⟨h1, h2, h3⟩ := sampleTimes_spec d i (sampleTimes d i 0).length 0 le_rfl
  refine ⟨?_, ?_, ?_, ?_, ?_⟩
  · conv_lhs => rw [h1]
    apply List.map_congr_left
    intro k _
    rw [zero_add]
  · intro k hk
    simpa using h2 k hk
  · simpa using h3 hi
  · obtain ⟨g1, g2, g3⟩ := sampleTimes_spec 600 1 (sampleTimes 600 1 0).length 0 le_rfl
    have hub : (sampleTimes 600 1 0).length ≤ 600 := by
      by_contra hgt
      push_neg at hgt
      have hbad := g2 600 hgt
      norm_num at hbad
    have hlb : 600 ≤ (sampleTimes 600 1 0).length := by
      have hle := g3 (by norm_num)
      have h600 : (600 : ℚ) ≤ ((sampleTimes 600 1 0).length : ℚ) := by
        simpa using hle
      exact_mod_cast h600
    omega
  · intro vid cid target thr idx faces det hdet
    have h42 : pyRound2 42 = 42 := by
      unfold pyRound2 roundHalfEven
      norm_num
    unfold frameDetections at hdet
    rw [List.mem_filterMap] at hdet
    obtain ⟨emb, hemb, hsome⟩ := hdet
    dsimp only at hsome
    by_cases hd : emb.length ≠ target.length
    · rw [if_pos hd] at hsome
      cases hsome
    · rw [if_neg hd] at hsome
      by_cases hle : cosine_distance_video target emb ≤ thr
      · rw [if_pos hle] at hsome
        have hdet_eq :
            (⟨vid, cid, pyRound2 42, pyRound2R ((1 - cosine_distance_video target emb) * 100),
              idx⟩ : VideoDetection) = det := by
          injection hsome
        rw [← hdet_eq]
        exact h42
      · rw [if_neg hle] at hsome
        cases hsome

/-- Witness for C6 at `d = 600`, `i = 1`. -/
theorem C6_sampling_witness :
    (0 : ℚ) < 1 ∧
    ((extraction_times 600 1 =
        (List.range (extraction_times 600 1).length).map (fun k : ℕ => (k : ℚ) * 1)) ∧
      (∀ k : ℕ, k < (extraction_times 600 1).length → (k : ℚ) * 1 < 600) ∧
      ((600 : ℚ) ≤ ((extraction_times 600 1).length : ℚ) * 1) ∧
      (extraction_times 600 1).length = 600 ∧
      (∀ (vid cid : String) (target : List ℚ) (thr : ℝ) (idx : ℕ)
          (faces : List (List ℚ)),
        ∀ det ∈ frameDetections vid cid target thr idx 42 faces,
          det.timestamp_seconds = 42)) :=
  ⟨by norm_num, C6_sampling 600 1 (by norm_num)⟩

theorem foldl_fst_mem (step : (Option String × ℝ) → CaseRec → Option String × ℝ)
    (hstep : ∀ st c, (step st c).1 = st.1 ∨ (step st c).1 = some c.id) :
    ∀ (l : List CaseRec) (st : Option String × ℝ),
      (l.foldl step st).1 = st.1 ∨
        (l.foldl step st).1 ∈ l.map fun c => some c.id := by
  intro l
  induction l with
  | nil => intro st; left; rfl
  | cons a l ih =>
      intro st
      rw [List.foldl_cons]
      rcases ih (step st a) with h | h
      · rcases hstep st a with h2 | h2
        · left; rw [h, h2]
        · right; rw [h, h2]; simp
      · right
        simp only [List.map_cons, List.mem_cons]
        right
        exact h

theorem filterMap_filter_eq {α β : Type} (f : α → Option β) (p : α → Bool)
    (h : ∀ a, p a = false → f a = none) :
    ∀ l : List α, l.filterMap f = (l.filter p).filterMap f := by
  intro l
  induction l with
  | nil => rfl
  | cons a l ih =>
      by_cases hp : p a = true
      · rw [List.filter_cons_of_pos hp]
        cases hfa : f a with
        | none => simp only [List.filterMap_cons, hfa]; exact ih
        | some b => simp only [List.filterMap_cons, hfa]; rw [ih]
      · rw [List.filter_cons_of_neg (by simpa using hp)]
        simp only [List.filterMap_cons, h a (by simpa using hp)]
        exact ih

/-- C4: dimension-mismatched candidates are invisible to all three scans —
removing them changes nothing (they are silently skipped, counted nowhere,
and cannot raise), and the selected best id can only be `none` or the id of
a dimension-matching candidate; likewise the video pipeline's detections of
one frame are unchanged when mismatched face embeddings are dropped. -/
theorem C4_dimension_mismatch_skipped :
    (∀ (q : List ℚ) (cands : List CaseRec),
      scanBatch q cands =
        scanBatch q (cands.filter fun c => decide (c.encoding.length = q.length))) ∧
    (∀ (q : List ℚ) (cands : List CaseRec),
      scanIncr q cands =
        scanIncr q (cands.filter fun c => decide (c.encoding.length = q.length))) ∧
    (∀ (q : List ℚ) (cands : List CaseRec),
      (scanBatch q cands).1 ∈
        (none : Option String) ::
          ((cands.filter fun c => decide (c.encoding.length = q.length)).map
            fun c => some c.id)) ∧
    (∀ (q : List ℚ) (cands : List CaseRec),
      (scanIncr q cands).1 ∈
        (none : Option String) ::
          ((cands.filter fun c => decide (c.encoding.length = q.length)).map
            fun c => some c.id)) ∧
    (∀ (vid cid : String) (target : List ℚ) (thr : ℝ) (idx : ℕ) (ts : ℚ)
        (faces : List (List ℚ)),
      frameDetections vid cid target thr idx ts faces =
        frameDetections vid cid target thr idx ts
          (faces.filter fun e => decide (e.length = target.length))) := by
  have hstepB : ∀ (q : List ℚ) (st : Option String × ℝ) (c : CaseRec),
      (stepBatch q st c).1 = st.1 ∨ (stepBatch q st c).1 = some c.id := by
    intro q st c
    unfold stepBatch
    dsimp only
    split_ifs <;> simp
  have hstepI : ∀ (q : List ℚ) (st : Option String × ℝ) (c : CaseRec),
      (stepIncr q st c).1 = st.1 ∨ (stepIncr q st c).1 = some c.id := by
    intro q st c
    unfold stepIncr
    dsimp only
    split_ifs <;> simp
  have hb : ∀ (q : List ℚ) (cands : List CaseRec),
      scanBatch q cands =
        scanBatch q (cands.filter fun c => decide (c.encoding.length = q.length)) := by
    intro q cands
    unfold scanBatch
    apply foldl_filter_id
    intro st c hc
    have hne : c.encoding.length ≠ q.length := by simpa using hc
    unfold stepBatch
    by_cases h0 : listSum c.encoding = 0
    · rw [if_pos h0]
    · rw [if_neg h0, if_pos hne]
  have hincr : ∀ (q : List ℚ) (cands : List CaseRec),
      scanIncr q cands =
        scanIncr q (cands.filter fun c => decide (c.encoding.length = q.length)) := by
    intro q cands
    unfold scanIncr
    apply foldl_filter_id
    intro st c hc
    have hne : c.encoding.length ≠ q.length := by simpa using hc
    unfold stepIncr
    rw [if_pos hne]
  refine ⟨hb, hincr, ?_, ?_, ?_⟩
  · intro q cands
    rw [hb q cands]
    unfold scanBatch
    rcases foldl_fst_mem (stepBatch q) (hstepB q)
        (cands.filter fun c => decide (c.encoding.length = q.length)) (none, 100) with
      h | h
    · rw [h]; exact List.mem_cons_self _ _
    · exact List.mem_cons_of_mem _ h
  · intro q cands
    rw [hincr q cands]
    unfold scanIncr
    rcases foldl_fst_mem (stepIncr q) (hstepI q)
        (cands.filter fun c => decide (c.encoding.length = q.length)) (none, 100) with
      h | h
    · rw [h]; exact List.mem_cons_self _ _
    · exact List.mem_cons_of_mem _ h
  · intro vid cid target thr idx ts faces
    unfold frameDetections
    apply filterMap_filter_eq
    intro e he
    have hne : e.length ≠ target.length := by simpa using he
    dsimp only
    rw [if_pos hne]

/-- The acceptance predicate shared by both matchers:
`if best_match_id and min_distance <= tolerance`. -/
def Accepts (st : Option String × ℝ) (tol : ℝ) : Prop :=
  pythonTruthy st.1 = true ∧ st.2 ≤ tol

theorem scanIncr_char (q : List ℚ) (cands : List CaseRec) :
    scanIncr q cands =
      minFold ((cands.filter (eligIncr q)).map fun c =>
        (c.id, calculate_cosine_distance q c.encoding)) (none, 100) := by
  rw [scanIncr_eq_filter]
  unfold scanIncr
  exact scanIncr_eq_minFold_aux q _ (none, 100) fun c hc => List.of_mem_filter hc

theorem scanBatch_char (q : List ℚ) (cands : List CaseRec) :
    scanBatch q cands =
      minFold ((cands.filter (eligBatch q)).map fun c =>
        (c.id, calculate_cosine_distance q c.encoding)) (none, 100) := by
  rw [scanBatch_eq_filter]
  unfold scanBatch
  exact scanBatch_eq_minFold_aux q _ (none, 100) fun c hc => List.of_mem_filter hc

theorem map_eq_append_cons {α β : Type} (f : α → β) :
    ∀ (l : List α) (s : List β) (b : β) (t : List β),
      l.map f = s ++ b :: t →
      ∃ l₁ a l₂, l = l₁ ++ a :: l₂ ∧ l₁.map f = s ∧ f a = b ∧ l₂.map f = t := by
  intro l s
  induction s generalizing l with
  | nil =>
      intro b t h
      cases l with
      | nil => simp at h
      | cons x xs =>
          simp only [List.map_cons, List.nil_append] at h
          obtain ⟨hb, ht⟩ := List.cons.inj h
          exact ⟨[], x, xs, by simp, rfl, hb, ht⟩
  | cons y ys ih =>
      intro b t h
      cases l with
      | nil => simp at h
      | cons x xs =>
          simp only [List.map_cons, List.cons_append] at h
          obtain ⟨hy, hrest⟩ := List.cons.inj h
          obtain ⟨l₁, a, l₂, h1, h2, h3, h4⟩ := ih xs b t hrest
          exact ⟨x :: l₁, a, l₂, by rw [h1]; rfl, by simp [hy, h2], h3, h4⟩

/-- Full characterisation of one scan result against the eligible sublist:
empty scan leaves `(None, 100.0)`; a nonempty scan returns the first-seen
minimum-distance eligible candidate; acceptance holds iff an eligible
candidate exists (ids being non-empty) and the minimum is within tolerance;
a unique eligible candidate above the tolerance is rejected. -/
theorem scanSpec (q : List ℚ) (tol : ℝ) (p : CaseRec → Bool)
    (cands : List CaseRec) (hids : ∀ c ∈ cands, c.id ≠ "")
    (res : Option String × ℝ)
    (hres : res = minFold ((cands.filter p).map fun c =>
      (c.id, calculate_cosine_distance q c.encoding)) (none, 100)) :
    (cands.filter p = [] → res = (none, 100)) ∧
    (cands.filter p ≠ [] →
      ∃ pre c post, cands.filter p = pre ++ c :: post ∧
        res = (some c.id, calculate_cosine_distance q c.encoding) ∧
        (∀ x ∈ cands.filter p,
          calculate_cosine_distance q c.encoding ≤
            calculate_cosine_distance q x.encoding) ∧
        (∀ x ∈ pre,
          calculate_cosine_distance q c.encoding <
            calculate_cosine_distance q x.encoding)) ∧
    (Accepts res tol ↔ (cands.filter p ≠ [] ∧ res.2 ≤ tol)) ∧
    (∀ c, cands.filter p = [c] →
      tol < calculate_cosine_distance q c.encoding → ¬ Accepts res tol) := by
  have hlt : ∀ x ∈ (cands.filter p).map fun c =>
      (c.id, calculate_cosine_distance q c.encoding), x.2 < 100 := by
    intro x hx
    rw [List.mem_map] at hx
    obtain ⟨c, _, rfl⟩ := hx
    exact calculate_cosine_distance_lt_hundred q c.encoding
  have hempty : cands.filter p = [] → res = (none, 100) := by
    intro hnil
    rw [hres, hnil]
    rfl
  have hmain : cands.filter p ≠ [] →
      ∃ pre c post, cands.filter p = pre ++ c :: post ∧
        res = (some c.id, calculate_cosine_distance q c.encoding) ∧
        (∀ x ∈ cands.filter p,
          calculate_cosine_distance q c.encoding ≤
            calculate_cosine_distance q x.encoding) ∧
        (∀ x ∈ pre,
          calculate_cosine_distance q c.encoding <
            calculate_cosine_distance q x.encoding) := by
    intro hne
    have hlne : ((cands.filter p).map fun c =>
        (c.id, calculate_cosine_distance q c.encoding)) ≠ [] := by
      simpa [List.map_eq_nil] using hne
    obtain ⟨pre1, pp, post1, hsplit1, heq1, hmin1, hpre1⟩ :=
      minFold_argmin _ hlt hlne
    obtain ⟨pre, c, post, hsplit, hmappre, hfc, hmappost⟩ :=
      map_eq_append_cons _ _ _ _ _ hsplit1
    refine ⟨pre, c, post, hsplit, ?_, ?_, ?_⟩
    · rw [hres, heq1, ← hfc]
    · intro x hx
      have hfx := hmin1 (x.id, calculate_cosine_distance q x.encoding)
        (List.mem_map.mpr ⟨x, hx, rfl⟩)
      rw [← hfc] at hfx
      exact hfx
    · intro x hx
      have hmem : (x.id, calculate_cosine_distance q x.encoding) ∈ pre1 := by
        rw [← hmappre]
        exact List.mem_map.mpr ⟨x, hx, rfl⟩
      have hfx := hpre1 _ hmem
      rw [← hfc] at hfx
      exact hfx
  refine ⟨hempty, hmain, ?_, ?_⟩
  · constructor
    · rintro ⟨htruthy, hle⟩
      refine ⟨?_, hle⟩
      intro hnil
      rw [hempty hnil] at htruthy
      exact Bool.noConfusion htruthy
    · rintro ⟨hne, hle⟩
      obtain ⟨pre, c, post, hsplit, heq, _, _⟩ := hmain hne
      have hcmem : c ∈ cands.filter p := by
        rw [hsplit]
        exact List.mem_append.mpr (Or.inr (List.mem_cons_self c post))
      have hid : c.id ≠ "" := hids c (List.mem_of_mem_filter hcmem)
      refine ⟨?_, hle⟩
      rw [heq]
      simp [pythonTruthy, hid]
  · intro c hsingle htol hacc
    obtain ⟨pre, c1, post, hsplit, heq, _, _⟩ :=
      hmain (by rw [hsingle]; exact List.cons_ne_nil c [])
    rw [hsingle] at hsplit
    have hc1 : c1 = c := by
      cases pre with
      | nil =>
          simp only [List.nil_append] at hsplit
          obtain ⟨h1, _⟩ := List.cons.inj hsplit
          exact h1.symm
      | cons x xs =>
          simp only [List.cons_append] at hsplit
          obtain ⟨_, h2⟩ := List.cons.inj hsplit
          exact absurd h2.symm (by simp)
    rw [hc1] at heq
    have h2 := hacc.2
    rw [heq] at h2
    exact absurd h2 (not_le.mpr htol)

/-- C1 counterexample: query `[2,0,0,0]`, candidates `A = [1,-1,1,-1]`
(same dimension, distance `1/2`) and `B = [0,0,-1,0]` (distance `1`),
threshold `3/5`.  `A` is the minimum-distance same-dimension candidate and
lies within the threshold, so the claim predicts acceptance of `A`; but the
Batch loop's placeholder skip (`np.sum(A) == 0`) drops `A` before the
dimension check, the scan returns `B` at distance `1 > 3/5`, and no match is
accepted at all. -/
theorem C1_counterexample :
    ([1, -1, 1, -1] : List ℚ).length = ([2, 0, 0, 0] : List ℚ).length ∧
    calculate_cosine_distance [2, 0, 0, 0] [1, -1, 1, -1] = 1 / 2 ∧
    (1 / 2 : ℝ) ≤ 3 / 5 ∧
    pubContribution (3 / 5) [⟨"A", [1, -1, 1, -1]⟩, ⟨"B", [0, 0, -1, 0]⟩]
      ⟨"p", [2, 0, 0, 0]⟩ = none := by
  have hn1 : l2norm [2, 0, 0, 0] = 2 := by
    unfold l2norm
    rw [show sumSq [2, 0, 0, 0] = (4 : ℚ) by norm_num [sumSq, dotList]]
    rw [show (((4 : ℚ) : ℝ)) = (2 : ℝ) ^ 2 by norm_num]
    exact Real.sqrt_sq (by norm_num)
  have hn2 : l2norm [1, -1, 1, -1] = 2 := by
    unfold l2norm
    rw [show sumSq [1, -1, 1, -1] = (4 : ℚ) by norm_num [sumSq, dotList]]
    rw [show (((4 : ℚ) : ℝ)) = (2 : ℝ) ^ 2 by norm_num]
    exact Real.sqrt_sq (by norm_num)
  have hn3 : l2norm [0, 0, -1, 0] = 1 := by
    unfold l2norm
    rw [show sumSq [0, 0, -1, 0] = (1 : ℚ) by norm_num [sumSq, dotList]]
    norm_num
  have hdA : calculate_cosine_distance [2, 0, 0, 0] [1, -1, 1, -1] = 1 / 2 := by
    unfold calculate_cosine_distance
    rw [if_neg (by rw [hn1, hn2]; norm_num)]
    rw [show dotList [2, 0, 0, 0] [1, -1, 1, -1] = (2 : ℚ) by norm_num [dotList]]
    rw [hn1, hn2]
    norm_num
  have hdB : calculate_cosine_distance [2, 0, 0, 0] [0, 0, -1, 0] = 1 := by
    unfold calculate_cosine_distance
    rw [if_neg (by rw [hn1, hn3]; norm_num)]
    rw [show dotList [2, 0, 0, 0] [0, 0, -1, 0] = (0 : ℚ) by norm_num [dotList]]
    norm_num
  refine ⟨rfl, hdA, by norm_num, ?_⟩
  unfold pubContribution
  rw [if_neg (show ¬listSum [2, 0, 0, 0] = 0 by norm_num [listSum])]
  have hA : stepBatch [2, 0, 0, 0] (none, 100) ⟨"A", [1, -1, 1, -1]⟩ =
      ((none : Option String), (100 : ℝ)) := by
    unfold stepBatch
    rw [if_pos (by norm_num [listSum])]
  have hB : stepBatch [2, 0, 0, 0] ((none : Option String), (100 : ℝ))
      ⟨"B", [0, 0, -1, 0]⟩ = (some "B", (1 : ℝ)) := by
    unfold stepBatch
    rw [if_neg (by norm_num [listSum]), if_neg (by norm_num)]
    dsimp only
    rw [hdB, if_pos (by norm_num : (1 : ℝ) < 100)]
  have hscan : scanBatch [2, 0, 0, 0]
      [⟨"A", [1, -1, 1, -1]⟩, ⟨"B", [0, 0, -1, 0]⟩] = (some "B", (1 : ℝ)) := by
    unfold scanBatch
    rw [List.foldl_cons, hA, List.foldl_cons, hB, List.foldl_nil]
  rw [hscan]
  dsimp only
  rw [if_neg]
  rintro ⟨-, hle⟩
  norm_num at hle

/-- C1 amended: the resolver picks the first-seen minimum-distance candidate
among the candidates each matcher actually scans — for the Incremental
matcher all same-dimension candidates, for the Batch matcher the
same-dimension candidates that additionally pass its placeholder (zero-sum)
pre-filter — and accepts iff such a best candidate exists (with a non-empty
id, as stored UUID ids are) and its distance is at most the threshold; a
unique scanned candidate above the threshold is rejected. -/
theorem C1_resolver_amended (q : List ℚ) (cands : List CaseRec) (tol : ℝ)
    (hids : ∀ c ∈ cands, c.id ≠ "") :
    ((cands.filter (eligIncr q) = [] → scanIncr q cands = (none, 100)) ∧
      (cands.filter (eligIncr q) ≠ [] →
        ∃ pre c post, cands.filter (eligIncr q) = pre ++ c :: post ∧
          scanIncr q cands = (some c.id, calculate_cosine_distance q c.encoding) ∧
          (∀ x ∈ cands.filter (eligIncr q),
            calculate_cosine_distance q c.encoding ≤
              calculate_cosine_distance q x.encoding) ∧
          (∀ x ∈ pre,
            calculate_cosine_distance q c.encoding <
              calculate_cosine_distance q x.encoding)) ∧
      (Accepts (scanIncr q cands) tol ↔
        (cands.filter (eligIncr q) ≠ [] ∧ (scanIncr q cands).2 ≤ tol)) ∧
      (∀ c, cands.filter (eligIncr q) = [c] →
        tol < calculate_cosine_distance q c.encoding →
        ¬ Accepts (scanIncr q cands) tol)) ∧
    ((cands.filter (eligBatch q) = [] → scanBatch q cands = (none, 100)) ∧
      (cands.filter (eligBatch q) ≠ [] →
        ∃ pre c post, cands.filter (eligBatch q) = pre ++ c :: post ∧
          scanBatch q cands = (some c.id, calculate_cosine_distance q c.encoding) ∧
          (∀ x ∈ cands.filter (eligBatch q),
            calculate_cosine_distance q c.encoding ≤
              calculate_cosine_distance q x.encoding) ∧
          (∀ x ∈ pre,
            calculate_cosine_distance q c.encoding <
              calculate_cosine_distance q x.encoding)) ∧
      (Accepts (scanBatch q cands) tol ↔
        (cands.filter (eligBatch q) ≠ [] ∧ (scanBatch q cands).2 ≤ tol)) ∧
      (∀ c, cands.filter (eligBatch q) = [c] →
        tol < calculate_cosine_distance q c.encoding →
        ¬ Accepts (scanBatch q cands) tol)) :=
  ⟨scanSpec q tol (eligIncr q) cands hids _ (scanIncr_char q cands),
    scanSpec q tol (eligBatch q) cands hids _ (scanBatch_char q cands)⟩

/-- Witness for C1 (amended) at query `[1]`, one candidate `A = [1]`,
threshold `1`: the non-empty-id hypothesis holds and the amended acceptance
characterisation follows by applying the theorem. -/
theorem C1_resolver_amended_witness :
    (∀ c ∈ [(⟨"A", [1]⟩ : CaseRec)], c.id ≠ "") ∧
    (Accepts (scanIncr [1] [⟨"A", [1]⟩]) 1 ↔
      ([(⟨"A", [1]⟩ : CaseRec)].filter (eligIncr [1]) ≠ [] ∧
        (scanIncr [1] [⟨"A", [1]⟩]).2 ≤ 1)) :=
  ⟨by simp, (C1_resolver_amended [1] [⟨"A", [1]⟩] 1 (by simp)).1.2.2.1⟩

/-- The zero sentinel of the spec: an all-zero (possibly empty) embedding. -/
def ZeroSentinel (e : List ℚ) : Prop := ∀ x ∈ e, x = 0

theorem listSum_eq_zero_of_sentinel {e : List ℚ} (h : ZeroSentinel e) :
    listSum e = 0 := by
  induction e with
  | nil => rfl
  | cons x l ih =>
      have hx : x = 0 := h x (List.mem_cons_self x l)
      have hl : ZeroSentinel l := fun y hy => h y (List.mem_cons_of_mem x hy)
      show x + listSum l = 0
      rw [hx, ih hl, add_zero]

theorem sumSq_eq_zero_of_sentinel {e : List ℚ} (h : ZeroSentinel e) :
    sumSq e = 0 := by
  induction e with
  | nil => rfl
  | cons x l ih =>
      have hx : x = 0 := h x (List.mem_cons_self x l)
      have hl : ZeroSentinel l := fun y hy => h y (List.mem_cons_of_mem x hy)
      rw [sumSq_cons, hx, ih hl]
      ring

theorem distance_one_of_sentinel_left {e : List ℚ} (b : List ℚ)
    (h : ZeroSentinel e) : calculate_cosine_distance e b = 1 := by
  unfold calculate_cosine_distance
  rw [if_pos (Or.inl ((l2norm_eq_zero_iff e).mpr (sumSq_eq_zero_of_sentinel h)))]

theorem distance_one_of_sentinel_right {e : List ℚ} (b : List ℚ)
    (h : ZeroSentinel e) : calculate_cosine_distance b e = 1 := by
  unfold calculate_cosine_distance
  rw [if_pos (Or.inr ((l2norm_eq_zero_iff e).mpr (sumSq_eq_zero_of_sentinel h)))]

theorem findPublicTarget_invalid (cid : String) :
    ∀ (rows : List (String × Option (List ℚ))) (enc : List ℚ),
      rows.find? (fun r => decide (r.1 = cid)) = some (cid, some enc) →
      (enc = [] ∨ listSum enc = 0) →
      findPublicTarget cid rows = .invalid := by
  intro rows
  induction rows with
  | nil => intro enc h _; simp at h
  | cons r rest ih =>
      obtain ⟨pid, mesh⟩ := r
      intro enc hfind hzero
      by_cases hr : pid = cid
      · have hfr : ((pid, mesh) :: rest).find? (fun r => decide (r.1 = cid)) =
            some (pid, mesh) :=
          List.find?_cons_of_pos rest (by simpa using hr)
        rw [hfr] at hfind
        obtain ⟨h1, h2⟩ := Prod.mk.inj (Option.some.inj hfind)
        unfold findPublicTarget
        rw [if_pos hr, h2]
        dsimp only
        rw [if_pos hzero]
      · have hfr : ((pid, mesh) :: rest).find? (fun r => decide (r.1 = cid)) =
            rest.find? (fun r => decide (r.1 = cid)) :=
          List.find?_cons_of_neg rest (by simpa using hr)
        rw [hfr] at hfind
        unfold findPublicTarget
        rw [if_neg hr]
        exact ih enc hfind hzero

theorem incrScanResult_not_err (case_id case_type : String) (tol : ℝ)
    (enc : List ℚ) (cands : List CaseRec) (db : DB) :
    ∀ msg, (incrScanResult case_id case_type tol enc cands db).1 ≠
      OneOutcome.err msg := by
  intro msg
  unfold incrScanResult
  cases hsc : scanIncr enc cands with
  | mk fst snd =>
      cases fst with
      | none => dsimp only; intro h; cases h
      | some b =>
          dsimp only
          split_ifs <;> simp

/-- C3 counterexample: an Incremental run of kind `registered` whose target
case has the zero-sentinel embedding `[0,0,0]` is NOT rejected as an
invalid encoding — the zero check exists only on the `public` (sighting)
path — the scan runs (the sentinel target is 1.0 from every candidate) and
the run ends as an ordinary `status=True, match_found=False` result. -/
theorem C3_counterexample :
    (match_one_against_all true
        ⟨[⟨"r1", "NF", some [0, 0, 0], none⟩], [⟨"p1", "NF", some [1, 0, 0]⟩]⟩
        "r1" "registered" (3 / 5)).1 = OneOutcome.noMatch ∧
    ∀ msg, (match_one_against_all true
        ⟨[⟨"r1", "NF", some [0, 0, 0], none⟩], [⟨"p1", "NF", some [1, 0, 0]⟩]⟩
        "r1" "registered" (3 / 5)).1 ≠ OneOutcome.err msg := by
  have hd0 : calculate_cosine_distance [0, 0, 0] [1, 0, 0] = 1 :=
    distance_one_of_sentinel_left _ (by simp [ZeroSentinel])
  have hstep : stepIncr [0, 0, 0] ((none : Option String), (100 : ℝ))
      ⟨"p1", [1, 0, 0]⟩ = (some "p1", (1 : ℝ)) := by
    unfold stepIncr
    rw [if_neg (by norm_num)]
    dsimp only
    rw [hd0, if_pos (by norm_num : (1 : ℝ) < 100)]
  have hscan : scanIncr [0, 0, 0] [⟨"p1", [1, 0, 0]⟩] = (some "p1", (1 : ℝ)) := by
    unfold scanIncr
    rw [List.foldl_cons, hstep, List.foldl_nil]
  have hmain : match_one_against_all true
      ⟨[⟨"r1", "NF", some [0, 0, 0], none⟩], [⟨"p1", "NF", some [1, 0, 0]⟩]⟩
      "r1" "registered" (3 / 5) =
      (OneOutcome.noMatch,
        ⟨[⟨"r1", "NF", some [0, 0, 0], none⟩], [⟨"p1", "NF", some [1, 0, 0]⟩]⟩) := by
    unfold match_one_against_all
    rw [if_neg (by decide : ¬(true = false))]
    rw [if_neg (by decide : ¬("registered" = "public"))]
    rw [if_pos rfl]
    have hreg : get_registered_cases_data
        ⟨[⟨"r1", "NF", some [0, 0, 0], none⟩], [⟨"p1", "NF", some [1, 0, 0]⟩]⟩ =
        some [⟨"r1", [0, 0, 0]⟩] := rfl
    have hpub : get_public_cases_data
        ⟨[⟨"r1", "NF", some [0, 0, 0], none⟩], [⟨"p1", "NF", some [1, 0, 0]⟩]⟩ =
        some [⟨"p1", [1, 0, 0]⟩] := rfl
    rw [hreg, hpub]
    dsimp only [Option.bind]
    rw [show ([(⟨"r1", [0, 0, 0]⟩ : CaseRec)].find? fun rc => decide (rc.id = "r1")) =
      some ⟨"r1", [0, 0, 0]⟩ from rfl]
    dsimp only
    rw [if_neg (by simp : ¬([(⟨"p1", [1, 0, 0]⟩ : CaseRec)] = []))]
    unfold incrScanResult
    rw [hscan]
    dsimp only
    rw [if_neg]
    rintro ⟨-, hle⟩
    norm_num at hle
  constructor
  · rw [hmain]
  · intro msg h
    rw [hmain] at h
    cases h

/-- C3 amended: the Batch matcher excludes zero-sentinel queries and
candidates before scanning; the Incremental matcher checks only the
`public` (sighting) kind — a zero-sentinel sighting target yields the
`status=False` "Invalid/Zero encoding" result, while a `registered` (case)
kind target is never rejected with that error, and Incremental candidates
are not excluded at all: a zero-sentinel candidate is scanned and scored
with the sentinel distance `1.0`. -/
theorem C3_zero_sentinel_amended :
    (∀ (tol : ℝ) (regs : List CaseRec) (p : CaseRec),
      ZeroSentinel p.encoding → pubContribution tol regs p = none) ∧
    (∀ (q : List ℚ) (st : Option String × ℝ) (c : CaseRec),
      ZeroSentinel c.encoding → stepBatch q st c = st) ∧
    (∀ (db : DB) (cid : String) (tol : ℝ) (enc : List ℚ),
      (fetch_public_rows db "NF").find? (fun r => decide (r.1 = cid)) =
        some (cid, some enc) →
      ZeroSentinel enc →
      match_one_against_all true db cid "public" tol =
        (OneOutcome.err "Invalid/Zero encoding", db)) ∧
    (∀ (db : DB) (cid : String) (tol : ℝ),
      (match_one_against_all true db cid "registered" tol).1 ≠
        OneOutcome.err "Invalid/Zero encoding") ∧
    (∀ (q : List ℚ) (st : Option String × ℝ) (c : CaseRec),
      ZeroSentinel c.encoding → c.encoding.length = q.length →
      stepIncr q st c = if (1 : ℝ) < st.2 then (some c.id, 1) else st) := by
  refine ⟨?_, ?_, ?_, ?_, ?_⟩
  · intro tol regs p hz
    unfold pubContribution
    rw [if_pos (listSum_eq_zero_of_sentinel hz)]
  · intro q st c hz
    unfold stepBatch
    rw [if_pos (listSum_eq_zero_of_sentinel hz)]
  · intro db cid tol enc hfind hz
    have hfpt : findPublicTarget cid (fetch_public_rows db "NF") = .invalid :=
      findPublicTarget_invalid cid _ enc hfind
        (Or.inr (listSum_eq_zero_of_sentinel hz))
    unfold match_one_against_all
    rw [if_neg (by decide : ¬(true = false)), if_pos rfl, hfpt]
  · intro db cid tol
    unfold match_one_against_all
    rw [if_neg (by decide : ¬(true = false))]
    rw [if_neg (by decide : ¬("registered" = "public"))]
    rw [if_pos rfl]
    cases hfind : (get_registered_cases_data db).bind
        (fun l => l.find? fun rc => decide (rc.id = cid)) with
    | none => dsimp only; intro h; injection h with hm; exact absurd hm (by decide)
    | some target =>
        dsimp only
        cases hcand : get_public_cases_data db with
        | none => dsimp only; intro h; cases h
        | some cands =>
            dsimp only
            by_cases hc : cands = []
            · rw [if_pos hc]; intro h; cases h
            · rw [if_neg hc]
              exact incrScanResult_not_err cid "registered" tol target.encoding cands db
                "Invalid/Zero encoding"
  · intro q st c hz hlen
    unfold stepIncr
    rw [if_neg (by rw [hlen]; exact fun h => h rfl)]
    dsimp only
    rw [distance_one_of_sentinel_right q hz]

/-- Witness for C3 (amended), part (c): a store with one NF sighting `s1`
whose stored embedding is `[0,0,0]` — the Incremental matcher on it returns
the `Invalid/Zero encoding` error and leaves the store untouched. -/
theorem C3_zero_sentinel_amended_witness :
    ((fetch_public_rows ⟨[], [⟨"s1", "NF", some [0, 0, 0]⟩]⟩ "NF").find?
        (fun r => decide (r.1 = "s1")) = some ("s1", some [0, 0, 0]) ∧
      ZeroSentinel [0, 0, 0]) ∧
    match_one_against_all true ⟨[], [⟨"s1", "NF", some [0, 0, 0]⟩]⟩ "s1" "public"
        (3 / 5) =
      (OneOutcome.err "Invalid/Zero encoding", ⟨[], [⟨"s1", "NF", some [0, 0, 0]⟩]⟩) :=
  ⟨⟨rfl, by simp [ZeroSentinel]⟩,
    C3_zero_sentinel_amended.2.2.1 ⟨[], [⟨"s1", "NF", some [0, 0, 0]⟩]⟩ "s1" (3 / 5)
      [0, 0, 0] rfl (by simp [ZeroSentinel])⟩

/-! ## Machinery for the persistence claims: what the batch writes touch -/

/-- The fields of a registered case that the matchers only read:
identity, status and the stored embedding. -/
def regView (r : RegCase) : String × String × Option (List ℚ) :=
  (r.id, r.status, r.face_mesh)

/-- The single-record effect of one `update_matched_with (a, b)` call. -/
def setMW (p : String × String) (r : RegCase) : RegCase :=
  if r.id = p.1 then { r with matched_with := some p.2 } else r

/-- The cumulative effect of a list of `update_matched_with` calls on one
registered record. -/
def applyRec (u : List (String × String)) (r : RegCase) : RegCase :=
  u.foldl (fun r p => setMW p r) r

/-- The final `matched_with` value a record with the given id holds after a
list of link writes, starting from `m`. -/
def lastVal (u : List (String × String)) (id : String) (m : Option String) :
    Option String :=
  u.foldl (fun m p => if id = p.1 then some p.2 else m) m

theorem setMW_view (p : String × String) (r : RegCase) :
    regView (setMW p r) = regView r := by
  unfold setMW regView
  split_ifs <;> rfl

theorem setMW_id (p : String × String) (r : RegCase) : (setMW p r).id = r.id := by
  unfold setMW
  split_ifs <;> rfl

theorem setMW_mw (p : String × String) (r : RegCase) :
    (setMW p r).matched_with =
      if r.id = p.1 then some p.2 else r.matched_with := by
  unfold setMW
  split_ifs <;> rfl

theorem applyRec_view (u : List (String × String)) :
    ∀ r : RegCase, regView (applyRec u r) = regView r := by
  induction u with
  | nil => intro r; rfl
  | cons p u ih =>
      intro r
      show regView (applyRec u (setMW p r)) = regView r
      rw [ih (setMW p r), setMW_view]

theorem applyRec_eq (u : List (String × String)) :
    ∀ r : RegCase,
      applyRec u r =
        ⟨r.id, r.status, r.face_mesh, lastVal u r.id r.matched_with⟩ := by
  induction u with
  | nil => intro r; rfl
  | cons p u ih =>
      intro r
      show applyRec u (setMW p r) = _
      rw [ih (setMW p r)]
      unfold setMW
      by_cases h : r.id = p.1
      · rw [if_pos h]
        show (⟨r.id, r.status, r.face_mesh, lastVal u r.id (some p.2)⟩ : RegCase) = _
        have : lastVal (p :: u) r.id r.matched_with = lastVal u r.id (some p.2) := by
          show lastVal u r.id (if r.id = p.1 then some p.2 else r.matched_with) = _
          rw [if_pos h]
        rw [this]
      · rw [if_neg h]
        have : lastVal (p :: u) r.id r.matched_with =
            lastVal u r.id r.matched_with := by
          show lastVal u r.id (if r.id = p.1 then some p.2 else r.matched_with) = _
          rw [if_neg h]
        rw [this]

theorem lastVal_eq (id : String) :
    ∀ (u : List (String × String)) (m : Option String),
      lastVal u id m =
        match lastVal u id none with
        | some v => some v
        | none => m := by
  intro u
  induction u with
  | nil => intro m; rfl
  | cons p u ih =>
      intro m
      by_cases h : id = p.1
      · have hm : lastVal (p :: u) id m = lastVal u id (some p.2) := by
          show lastVal u id (if id = p.1 then some p.2 else m) = _
          rw [if_pos h]
        have hn : lastVal (p :: u) id none = lastVal u id (some p.2) := by
          show lastVal u id (if id = p.1 then some p.2 else none) = _
          rw [if_pos h]
        rw [hm, hn]
        rw [ih (some p.2)]
        cases lastVal u id none <;> rfl
      · have hm : lastVal (p :: u) id m = lastVal u id m := by
          show lastVal u id (if id = p.1 then some p.2 else m) = _
          rw [if_neg h]
        have hn : lastVal (p :: u) id none = lastVal u id none := by
          show lastVal u id (if id = p.1 then some p.2 else none) = _
          rw [if_neg h]
        rw [hm, hn]
        exact ih m

theorem lastVal_lastVal (u : List (String × String)) (id : String)
    (m : Option String) :
    lastVal u id (lastVal u id m) = lastVal u id m := by
  rw [lastVal_eq id u (lastVal u id m), lastVal_eq id u m]
  cases lastVal u id none <;> rfl

theorem applyRec_applyRec (u : List (String × String)) (r : RegCase) :
    applyRec u (applyRec u r) = applyRec u r := by
  rw [applyRec_eq u r, applyRec_eq u ⟨r.id, r.status, r.face_mesh,
    lastVal u r.id r.matched_with⟩]
  show (⟨r.id, r.status, r.face_mesh,
    lastVal u r.id (lastVal u r.id r.matched_with)⟩ : RegCase) = _
  rw [lastVal_lastVal]

theorem applyRec_of_not_mem (u : List (String × String)) :
    ∀ r : RegCase, (∀ p ∈ u, r.id ≠ p.1) → applyRec u r = r := by
  induction u with
  | nil => intro r _; rfl
  | cons p u ih =>
      intro r hr
      show applyRec u (setMW p r) = r
      have hp : setMW p r = r := by
        unfold setMW
        rw [if_neg (hr p (List.mem_cons_self p u))]
      rw [hp]
      exact ih r fun q hq => hr q (List.mem_cons_of_mem p hq)

/-- The batch write fold, expressed record-wise: pubs untouched, each
registered record transformed by `applyRec` over the link writes. -/
theorem foldl_update_eq (u : List (String × String)) :
    ∀ db : DB,
      u.foldl (fun d p => update_matched_with d p.1 p.2) db =
        ⟨db.regs.map (applyRec u), db.pubs⟩ := by
  induction u with
  | nil =>
      intro db
      show db = ⟨db.regs.map (applyRec []), db.pubs⟩
      have hmap : db.regs.map (applyRec []) = db.regs := by
        rw [show (applyRec []) = (fun r : RegCase => r) from rfl]
        exact List.map_id' db.regs
      rw [hmap]
  | cons p u ih =>
      intro db
      rw [List.foldl_cons, ih]
      show (⟨(update_matched_with db p.1 p.2).regs.map (applyRec u),
        (update_matched_with db p.1 p.2).pubs⟩ : DB) = _
      unfold update_matched_with
      dsimp only
      rw [List.map_map]
      rfl

/-- The link-pair fold used by `runMatch`, reduced to the pair-list fold. -/
theorem links_foldl_eq (links : List (String × MatchEntry)) (db : DB) :
    links.foldl (fun d pr => update_matched_with d pr.1 pr.2.public_id) db =
      (links.map fun pr => (pr.1, pr.2.public_id)).foldl
        (fun d p => update_matched_with d p.1 p.2) db := by
  rw [List.foldl_map]

theorem get_public_cases_data_congr (db db' : DB) (h : db'.pubs = db.pubs) :
    get_public_cases_data db' = get_public_cases_data db := by
  unfold get_public_cases_data fetch_public_rows
  rw [h]

theorem filtered_rows_congr :
    ∀ (rs rs' : List RegCase), rs'.map regView = rs.map regView →
      (rs'.filter fun r => decide (r.status = "NF")).map
          (fun r => (r.id, r.face_mesh)) =
        (rs.filter fun r => decide (r.status = "NF")).map
          (fun r => (r.id, r.face_mesh)) := by
  intro rs
  induction rs with
  | nil =>
      intro rs' h
      have : rs' = [] := by simpa using h
      rw [this]
  | cons r rest ih =>
      intro rs' h
      cases rs' with
      | nil => simp at h
      | cons r1 rest1 =>
          simp only [List.map_cons] at h
          obtain ⟨hview, htail⟩ := List.cons.inj h
          have hid : r1.id = r.id := congrArg Prod.fst hview
          have hstatus : r1.status = r.status :=
            congrArg (fun v => v.2.1) hview
          have hmesh : r1.face_mesh = r.face_mesh :=
            congrArg (fun v => v.2.2) hview
          by_cases hst : r.status = "NF"
          · rw [List.filter_cons_of_pos
                (by simp only [decide_eq_true_eq]; rw [hstatus]; exact hst),
              List.filter_cons_of_pos (by simp [hst])]
            rw [List.map_cons, List.map_cons, ih rest1 htail, hid, hmesh]
          · rw [List.filter_cons_of_neg
                (by simp only [decide_eq_true_eq]; rw [hstatus]; exact hst),
              List.filter_cons_of_neg (by simp [hst])]
            exact ih rest1 htail

theorem get_registered_cases_data_congr (db db' : DB)
    (h : db'.regs.map regView = db.regs.map regView) :
    get_registered_cases_data db' = get_registered_cases_data db := by
  unfold get_registered_cases_data fetch_registered_rows
  rw [filtered_rows_congr db.regs db'.regs h]

theorem update_matched_with_pubs (db : DB) (a b : String) :
    (update_matched_with db a b).pubs = db.pubs := rfl

theorem update_matched_with_view (db : DB) (a b : String) :
    (update_matched_with db a b).regs.map regView = db.regs.map regView := by
  unfold update_matched_with
  dsimp only
  rw [List.map_map]
  apply List.map_congr_left
  intro r _
  exact setMW_view (a, b) r

theorem runMatch_pubs_view (deepface : Bool) (tol : ℝ) (db : DB) :
    (runMatch deepface tol db).2.pubs = db.pubs ∧
    (runMatch deepface tol db).2.regs.map regView = db.regs.map regView := by
  unfold runMatch
  cases hdec : batchDecision deepface tol (get_public_cases_data db)
      (get_registered_cases_data db) with
  | err m => exact ⟨rfl, rfl⟩
  | ok links =>
      dsimp only
      rw [links_foldl_eq, foldl_update_eq]
      refine ⟨rfl, ?_⟩
      dsimp only
      rw [List.map_map]
      apply List.map_congr_left
      intro r _
      exact applyRec_view _ r

theorem incrScanResult_snd_cases (cid ctype : String) (tol : ℝ) (enc : List ℚ)
    (cands : List CaseRec) (db : DB) :
    (incrScanResult cid ctype tol enc cands db).2 = db ∨
    ∃ a b, (incrScanResult cid ctype tol enc cands db).2 =
      update_matched_with db a b := by
  unfold incrScanResult
  cases hsc : scanIncr enc cands with
  | mk fst snd =>
      cases fst with
      | none => left; rfl
      | some b =>
          dsimp only
          by_cases hacc : pythonTruthy (some b) = true ∧ snd ≤ tol
          · rw [if_pos hacc]
            right
            exact ⟨_, _, rfl⟩
          · rw [if_neg hacc]
            left
            rfl

theorem match_one_snd_cases (deepface : Bool) (db : DB) (cid ctype : String)
    (tol : ℝ) :
    (match_one_against_all deepface db cid ctype tol).2 = db ∨
    ∃ a b, (match_one_against_all deepface db cid ctype tol).2 =
      update_matched_with db a b := by
  unfold match_one_against_all
  by_cases hdf : deepface = false
  · rw [if_pos hdf]; left; rfl
  · rw [if_neg hdf]
    by_cases ht1 : ctype = "public"
    · rw [if_pos ht1]
      cases findPublicTarget cid (fetch_public_rows db "NF") with
      | invalid => left; rfl
      | notFound => left; rfl
      | found enc =>
          dsimp only
          cases get_registered_cases_data db with
          | none => left; rfl
          | some cands =>
              dsimp only
              by_cases hc : cands = []
              · rw [if_pos hc]; left; rfl
              · rw [if_neg hc]
                exact incrScanResult_snd_cases cid "public" tol enc cands db
    · rw [if_neg ht1]
      by_cases ht2 : ctype = "registered"
      · rw [if_pos ht2]
        cases (get_registered_cases_data db).bind
            (fun l => l.find? fun rc => decide (rc.id = cid)) with
        | none => left; rfl
        | some target =>
            dsimp only
            cases get_public_cases_data db with
            | none => left; rfl
            | some cands =>
                dsimp only
                by_cases hc : cands = []
                · rw [if_pos hc]; left; rfl
                · rw [if_neg hc]
                  exact incrScanResult_snd_cases cid "registered" tol
                    target.encoding cands db
      · rw [if_neg ht2]; left; rfl

/-- C5: the Batch Matcher's only persistence effect is the
`matched_with` link — every registered case keeps its id, status, and stored
embedding (no status is flipped to Found), the sightings table is untouched,
a run whose accepted-link list is empty writes nothing, a registered case
that is not the target of any accepted link is byte-for-byte unchanged, and
the Incremental matcher likewise never mutates a stored embedding or
status. -/
theorem C5_persistence (deepface : Bool) (tol : ℝ) (db : DB) :
    ((runMatch deepface tol db).2.pubs = db.pubs) ∧
    ((runMatch deepface tol db).2.regs.map regView = db.regs.map regView) ∧
    ((runMatch deepface tol db).1 = BatchOutcome.ok [] →
      (runMatch deepface tol db).2 = db) ∧
    (∀ links, (runMatch deepface tol db).1 = BatchOutcome.ok links →
      ∀ r ∈ db.regs, r.id ∉ links.map Prod.fst →
        r ∈ (runMatch deepface tol db).2.regs) ∧
    (∀ cid ctype : String,
      (match_one_against_all deepface db cid ctype tol).2.pubs = db.pubs ∧
      (match_one_against_all deepface db cid ctype tol).2.regs.map regView =
        db.regs.map regView) := by
  obtain ⟨hpubs, hview⟩ := runMatch_pubs_view deepface tol db
  refine ⟨hpubs, hview, ?_, ?_, ?_⟩
  · intro hok
    unfold runMatch at hok ⊢
    cases hdec : batchDecision deepface tol (get_public_cases_data db)
        (get_registered_cases_data db) with
    | err m => rfl
    | ok links =>
        rw [hdec] at hok
        dsimp only at hok
        have hlinks : links = [] := BatchOutcome.ok.inj hok
        dsimp only
        rw [hlinks]
        rfl
  · intro links hok r hr hnot
    unfold runMatch at hok ⊢
    cases hdec : batchDecision deepface tol (get_public_cases_data db)
        (get_registered_cases_data db) with
    | err m =>
        rw [hdec] at hok
        dsimp only at hok
        cases hok
    | ok links1 =>
        rw [hdec] at hok
        dsimp only at hok
        have hlinks : links1 = links := BatchOutcome.ok.inj hok
        dsimp only
        rw [hlinks, links_foldl_eq, foldl_update_eq]
        dsimp only
        have hfix : applyRec (links.map fun pr => (pr.1, pr.2.public_id)) r = r := by
          apply applyRec_of_not_mem
          intro p hp hpid
          rw [List.mem_map] at hp
          obtain ⟨pr, hpr, rfl⟩ := hp
          exact hnot (by
            rw [List.mem_map]
            exact ⟨pr, hpr, by rw [hpid]⟩)
        rw [← hfix]
        exact List.mem_map_of_mem _ hr
  · intro cid ctype
    rcases match_one_snd_cases deepface db cid ctype tol with h | ⟨a, b, h⟩
    · rw [h]; exact ⟨rfl, rfl⟩
    · rw [h]
      exact ⟨update_matched_with_pubs db a b, update_matched_with_view db a b⟩

/-- Witness for C5, applied at an unavailable-backend run over the empty
store (and at one incremental run). -/
theorem C5_persistence_witness :
    (runMatch false 1 ⟨[], []⟩).2.pubs = ([] : List PubCase) ∧
    (match_one_against_all false ⟨[], []⟩ "x" "public" 1).2.pubs =
      ([] : List PubCase) :=
  ⟨(C5_persistence false 1 ⟨[], []⟩).1,
    ((C5_persistence false 1 ⟨[], []⟩).2.2.2.2 "x" "public").1⟩

theorem pairs_foldl_idem (u : List (String × String)) (db : DB) :
    u.foldl (fun d p => update_matched_with d p.1 p.2)
        (u.foldl (fun d p => update_matched_with d p.1 p.2) db) =
      u.foldl (fun d p => update_matched_with d p.1 p.2) db := by
  rw [foldl_update_eq u db,
    foldl_update_eq u ⟨db.regs.map (applyRec u), db.pubs⟩]
  dsimp only
  rw [List.map_map]
  congr 1
  apply List.map_congr_left
  intro r _
  exact applyRec_applyRec u r

theorem links_foldl_idem (links : List (String × MatchEntry)) (db : DB) :
    links.foldl (fun d pr => update_matched_with d pr.1 pr.2.public_id)
        (links.foldl (fun d pr => update_matched_with d pr.1 pr.2.public_id) db) =
      links.foldl (fun d pr => update_matched_with d pr.1 pr.2.public_id) db := by
  rw [links_foldl_eq links db, links_foldl_eq]
  exact pairs_foldl_idem _ db

/-- C9: running the Batch Matcher a second time over the store left by a
first run returns the same outcome (the same accepted links, since the
writes of the first run touch only `matched_with`, which no read depends
on) and leaves the store exactly as the first run did. -/
theorem C9_batch_idempotent (deepface : Bool) (tol : ℝ) (db : DB) :
    (runMatch deepface tol ((runMatch deepface tol db).2)).1 =
      (runMatch deepface tol db).1 ∧
    (runMatch deepface tol ((runMatch deepface tol db).2)).2 =
      (runMatch deepface tol db).2 := by
  obtain ⟨hpubs, hview⟩ := runMatch_pubs_view deepface tol db
  have hdp : get_public_cases_data ((runMatch deepface tol db).2) =
      get_public_cases_data db :=
    get_public_cases_data_congr db _ hpubs
  have hdr : get_registered_cases_data ((runMatch deepface tol db).2) =
      get_registered_cases_data db :=
    get_registered_cases_data_congr db _ hview
  cases hdec : batchDecision deepface tol (get_public_cases_data db)
      (get_registered_cases_data db) with
  | err m =>
      have h1 : runMatch deepface tol db = (.err m, db) := by
        unfold runMatch
        rw [hdec]
      rw [h1]
      dsimp only
      rw [h1]
      exact ⟨rfl, rfl⟩
  | ok links =>
      have h1 : runMatch deepface tol db =
          (.ok links, links.foldl
            (fun d pr => update_matched_with d pr.1 pr.2.public_id) db) := by
        unfold runMatch
        rw [hdec]
      set db1 := (runMatch deepface tol db).2 with hdb1
      have h2 : runMatch deepface tol db1 =
          (.ok links, links.foldl
            (fun d pr => update_matched_with d pr.1 pr.2.public_id) db1) := by
        unfold runMatch
        rw [hdp, hdr, hdec]
      rw [h2]
      constructor
      · rw [h1]
      · rw [hdb1, h1]
        dsimp only
        exact links_foldl_idem links db

end Reunite
